import Mathlib

/-
Shallow embedding of the pakr package resolver (github.com/justinfx/pakr).

Sources embedded here:
  resolver.go : Resolver, Initialize, addRequires, Resolve, Solution,
                cnfToPackageRelations, buildConflictClauses, stringIdMap,
                numCombos
  doc.go      : Package, Packages, Dependency, ProductMap, PackageRelation,
                Relation, flattenDependencies, packagesToIds

Modelling conventions:
  - pigosat.Literal (an int32) is embedded as Int; the resolver only ever
    allocates ids 1,2,3,..., one per distinct package name, so 32-bit
    overflow is immaterial to the claims treated here.
  - Go maps are embedded as association lists with insert-or-replace
    update; `List.lookup` returns the first binding, which agrees with Go
    map lookup because no duplicate keys are ever created.  Where Go
    iterates over a map (unspecified order) the embedding iterates in
    insertion order, one admissible order; no claim below depends on it.
  - Go string comparison is byte-wise lexicographic; it is embedded as a
    character-wise lexicographic comparison on the code points, which
    coincides with Go on ASCII data.
  - The external SAT engine (pigosat) is not part of the repository; calls
    to Solve are modelled by passing the returned (status, model) pair as
    an explicit input to the embedded Resolve.
-/

namespace Pakr

/-- Solver literal; pigosat.Literal embedded as Int. -/
abbrev Literal := Int

/-- A Package is a specific version of a Product (doc.go). -/
structure Package where
  product : String
  version : String
deriving DecidableEq

/-- PackageName returns the product-version name of the Package
(Package.PackageName in doc.go; the Go cache field is an optimization
with no observable effect). -/
def Package.packageName (p : Package) : String :=
  p.product ++ "-" ++ p.version

/-- Defines a Package and all of its direct dependencies (doc.go).
A nil Requires slice behaves exactly like an empty one in every loop of
resolver.go, so it is embedded as the empty list. -/
structure Dependency where
  target : Package
  requires : List (List Package)
deriving DecidableEq

/-- stringIdMap assigns and tracks unique literal ids that map to unique
strings (resolver.go). -/
structure stringIdMap where
  i_map : List (Literal × String)
  s_map : List (String × Literal)
  i : Literal
deriving DecidableEq

/-- newStringIdMap (resolver.go). -/
def newStringIdMap : stringIdMap := ⟨[], [], 0⟩

/-- StringToId returns a unique id for a given string, allocating the next
id for unseen non-empty strings; the empty string always maps to 0
(resolver.go).  The mutation of the receiver is modelled by returning the
updated map. -/
def stringIdMap.StringToId (m : stringIdMap) (s : String) : Literal × stringIdMap :=
  if s = "" then (0, m)
  else
    match (m.s_map).lookup s with
    | some id => (id, m)
    | none =>
      let j := m.i + 1
      (j, ⟨m.i_map ++ [(j, s)], m.s_map ++ [(s, j)], j⟩)

/-- GetId looks up an id for an existing string mapping (resolver.go);
the Go error return is modelled by Option. -/
def stringIdMap.GetId (m : stringIdMap) (s : String) : Option Literal :=
  (m.s_map).lookup s

/-- IdToString returns the string to which an existing id maps, treating
negative ids as their absolute value; unknown ids give "" (resolver.go). -/
def stringIdMap.IdToString (m : stringIdMap) (i : Literal) : String :=
  let j := if i < 0 then -i else i
  match (m.i_map).lookup j with
  | some s => s
  | none => ""

/-- Len returns the number of items mapped (resolver.go). -/
def stringIdMap.Len (m : stringIdMap) : Nat := m.s_map.length

/-- The list a, a+1, ..., a+k-1 over Int. -/
def intRange (a : Int) (k : Nat) : List Int := (List.range k).map (fun (j : Nat) => a + (j : Int))

/-- Invariant of the Name-Id Map: ids are 1..k in first-seen order, the
id-to-string map mirrors the string-to-id map, the counter equals the
size, keys are distinct and never empty. -/
def stringIdMap.Inv (m : stringIdMap) : Prop :=
  m.s_map.map Prod.snd = intRange 1 m.s_map.length
  ∧ m.i_map = m.s_map.map (fun pr => (pr.2, pr.1))
  ∧ m.i = (m.s_map.length : Int)
  ∧ (m.s_map.map Prod.fst).Nodup
  ∧ "" ∉ m.s_map.map Prod.fst

-- Association list helper lemmas.

theorem lookup_eq_none_of_not_mem_keys {α β : Type _} [BEq α] [LawfulBEq α]
    {l : List (α × β)} {k : α} (h : k ∉ l.map Prod.fst) : l.lookup k = none := by
  induction l with
  | nil => rfl
  | cons p t ih =>
    simp only [List.map_cons, List.mem_cons] at h
    push_neg at h
    have hkb : (k == p.1) = false := beq_eq_false_iff_ne.mpr h.1
    simp only [List.lookup, hkb]
    exact ih h.2

theorem lookup_isSome_of_mem_keys {α β : Type _} [BEq α] [LawfulBEq α]
    {l : List (α × β)} {k : α} (h : k ∈ l.map Prod.fst) : (l.lookup k).isSome := by
  induction l with
  | nil => simp at h
  | cons p t ih =>
    simp only [List.map_cons, List.mem_cons] at h
    cases hkb : k == p.1 with
    | true => simp only [List.lookup, hkb]; rfl
    | false =>
      simp only [List.lookup, hkb]
      rcases h with h | h
      · exact absurd (beq_iff_eq.mpr h) (by simp [hkb])
      · exact ih h

theorem mem_keys_of_lookup_eq_some {α β : Type _} [BEq α] [LawfulBEq α]
    {l : List (α × β)} {k : α} {v : β} (h : l.lookup k = some v) :
    k ∈ l.map Prod.fst := by
  induction l with
  | nil => simp [List.lookup] at h
  | cons p t ih =>
    cases hkb : k == p.1 with
    | true =>
      simp only [List.map_cons, List.mem_cons]
      exact Or.inl (beq_iff_eq.mp hkb)
    | false =>
      simp only [List.lookup, hkb] at h
      simp only [List.map_cons, List.mem_cons]
      exact Or.inr (ih h)

theorem mem_values_of_lookup_eq_some {α β : Type _} [BEq α] [LawfulBEq α]
    {l : List (α × β)} {k : α} {v : β} (h : l.lookup k = some v) :
    v ∈ l.map Prod.snd := by
  induction l with
  | nil => simp [List.lookup] at h
  | cons p t ih =>
    cases hkb : k == p.1 with
    | true =>
      simp only [List.lookup, hkb] at h
      simp only [List.map_cons, List.mem_cons]
      exact Or.inl (Option.some.inj h).symm
    | false =>
      simp only [List.lookup, hkb] at h
      simp only [List.map_cons, List.mem_cons]
      exact Or.inr (ih h)

/-- Swapped-pair lookup on an association list with distinct keys and
distinct values inverts the lookup direction. -/
theorem lookup_swap_iff {α β : Type _} [BEq α] [LawfulBEq α] [BEq β] [LawfulBEq β]
    {l : List (α × β)} (hk : (l.map Prod.fst).Nodup) (hv : (l.map Prod.snd).Nodup)
    (s : α) (id : β) :
    l.lookup s = some id ↔ (l.map (fun pr => (pr.2, pr.1))).lookup id = some s := by
  induction l with
  | nil => simp [List.lookup]
  | cons p t ih =>
    simp only [List.map_cons, List.nodup_cons] at hk hv
    by_cases hs : s = p.1
    · subst hs
      by_cases hid : id = p.2
      · subst hid
        simp only [List.map_cons, List.lookup, beq_self_eq_true]
      · have hib : (id == p.2) = false := beq_eq_false_iff_ne.mpr hid
        simp only [List.map_cons, List.lookup, beq_self_eq_true, hib]
        constructor
        · intro h; exact absurd (Option.some.inj h).symm hid
        · intro h
          exact absurd (mem_keys_of_lookup_eq_some ((ih hk.2 hv.2).mpr h)) hk.1
    · have hsb : (s == p.1) = false := beq_eq_false_iff_ne.mpr hs
      by_cases hid : id = p.2
      · subst hid
        simp only [List.map_cons, List.lookup, hsb, beq_self_eq_true]
        constructor
        · intro h
          exact absurd (mem_values_of_lookup_eq_some h) hv.1
        · intro h; exact absurd (Option.some.inj h).symm hs
      · have hib : (id == p.2) = false := beq_eq_false_iff_ne.mpr hid
        simp only [List.map_cons, List.lookup, hsb, hib]
        exact ih hk.2 hv.2

theorem intRange_succ (a : Int) (k : Nat) :
    intRange a (k + 1) = intRange a k ++ [a + (k : Int)] := by
  simp [intRange, List.range_succ]

theorem intRange_nodup (a : Int) (k : Nat) : (intRange a k).Nodup := by
  refine List.Nodup.map ?_ (List.nodup_range k)
  intro x y h
  simp only at h
  omega

theorem mem_intRange {a : Int} {k : Nat} {x : Int} :
    x ∈ intRange a k ↔ a ≤ x ∧ x < a + (k : Int) := by
  unfold intRange
  simp only [List.mem_map, List.mem_range]
  constructor
  · rintro ⟨j, hj, rfl⟩
    constructor <;> omega
  · intro h
    refine ⟨(x - a).toNat, ?_, ?_⟩ <;> omega

-- Behaviour of StringToId.

theorem StringToId_empty (m : stringIdMap) : m.StringToId "" = (0, m) := by
  simp [stringIdMap.StringToId]

theorem StringToId_lookup_mono (m : stringIdMap) (s s' : String) (id : Literal)
    (h : (m.s_map).lookup s' = some id) :
    (((m.StringToId s).2).s_map).lookup s' = some id := by
  unfold stringIdMap.StringToId
  by_cases hs : s = ""
  · simpa [hs]
  · rw [if_neg hs]
    cases hl : (m.s_map).lookup s with
    | some id2 => simpa
    | none =>
      simp only
      rw [List.lookup_append, h]
      rfl

theorem StringToId_lookup_self (m : stringIdMap) (s : String) (hs : s ≠ "") :
    (((m.StringToId s).2).s_map).lookup s = some (m.StringToId s).1 := by
  unfold stringIdMap.StringToId
  rw [if_neg hs]
  cases hl : (m.s_map).lookup s with
  | some id2 => simpa
  | none =>
    simp only
    rw [List.lookup_append, hl]
    simp [List.lookup]

theorem StringToId_len_mono (m : stringIdMap) (s : String) :
    m.s_map.length ≤ ((m.StringToId s).2).s_map.length := by
  unfold stringIdMap.StringToId
  by_cases hs : s = ""
  · simp [hs]
  · rw [if_neg hs]
    cases hl : (m.s_map).lookup s with
    | some id2 => simp
    | none => simp

theorem StringToId_Inv (m : stringIdMap) (s : String) (h : m.Inv) :
    ((m.StringToId s).2).Inv := by
  unfold stringIdMap.StringToId
  by_cases hs : s = ""
  · simpa [hs]
  · rw [if_neg hs]
    cases hl : (m.s_map).lookup s with
    | some id2 => simpa
    | none =>
      obtain ⟨h1, h2, h3, h4, h5⟩ := h
      refine ⟨?_, ?_, ?_, ?_, ?_⟩
      · simp only [List.map_append, List.length_append, List.map_cons, List.map_nil,
          List.length_cons, List.length_nil]
        rw [h1, h3]
        have he : m.s_map.length + (0 + 1) = m.s_map.length + 1 := by omega
        rw [he, intRange_succ]
        have he2 : ((m.s_map.length : Int)) + 1 = 1 + ((m.s_map.length : Int)) := by omega
        rw [he2]
      · simp [List.map_append, h2]
      · dsimp only
        simp only [List.length_append, List.length_cons, List.length_nil]
        rw [h3]
        push_cast
        ring
      · simp only [List.map_append, List.map_cons, List.map_nil]
        refine List.Nodup.append h4 (List.nodup_singleton s) ?_
        intro x hx hx'
        simp only [List.mem_singleton] at hx'
        subst hx'
        have := lookup_isSome_of_mem_keys hx
        rw [hl] at this
        exact absurd this (by simp)
      · simp only [List.map_append, List.map_cons, List.map_nil, List.mem_append,
          List.mem_singleton]
        rintro (hmem | hmem)
        · exact h5 hmem
        · exact hs hmem.symm

/-- Fresh or existing, the id returned for a non-empty name is positive
when the map satisfies the invariant. -/
theorem StringToId_pos (m : stringIdMap) (s : String) (h : m.Inv) (hs : s ≠ "") :
    0 < (m.StringToId s).1 := by
  obtain ⟨h1, _h2, h3, _h4, _h5⟩ := h
  unfold stringIdMap.StringToId
  rw [if_neg hs]
  cases hl : (m.s_map).lookup s with
  | some id =>
    have hv : id ∈ m.s_map.map Prod.snd := mem_values_of_lookup_eq_some hl
    rw [h1] at hv
    have := (mem_intRange).mp hv
    simpa using this.1
  | none =>
    simp only
    rw [h3]
    positivity

/-- C9: invariant of the Name-Id Map preserved by every intern operation:
the string-to-id and id-to-string maps are mutually inverse, interning the
empty string returns 0 and leaves the map unchanged, ids are assigned
densely 1..k in first-seen order, the map never shrinks and an existing
name always keeps its id. -/
theorem C9_nameIdMap_invariant :
    newStringIdMap.Inv
    ∧ (∀ (m : stringIdMap) (s : String), m.Inv → ((m.StringToId s).2).Inv)
    ∧ (∀ m : stringIdMap, m.StringToId "" = (0, m))
    ∧ (∀ (m : stringIdMap) (s s' : String) (id : Literal),
        (m.s_map).lookup s' = some id → (((m.StringToId s).2).s_map).lookup s' = some id)
    ∧ (∀ (m : stringIdMap) (s : String), m.s_map.length ≤ ((m.StringToId s).2).s_map.length)
    ∧ (∀ m : stringIdMap, m.Inv → ∀ (s : String) (id : Literal),
        ((m.s_map).lookup s = some id ↔ (m.i_map).lookup id = some s))
    ∧ (∀ m : stringIdMap, m.Inv → m.s_map.map Prod.snd = intRange 1 m.Len) := by
  refine ⟨?_, StringToId_Inv, StringToId_empty, StringToId_lookup_mono,
      StringToId_len_mono, ?_, ?_⟩
  · exact ⟨by simp [newStringIdMap, intRange], rfl, by simp [newStringIdMap],
      by simp [newStringIdMap], by simp [newStringIdMap]⟩
  · intro m hm s id
    obtain ⟨h1, h2, _h3, h4, _h5⟩ := hm
    have hv : (m.s_map.map Prod.snd).Nodup := by
      rw [h1]; exact intRange_nodup 1 _
    rw [h2]
    exact lookup_swap_iff h4 hv s id
  · intro m hm
    exact hm.1

/-- Witness for C9 at the concrete map obtained by interning "A" into the
empty map. -/
theorem C9_nameIdMap_invariant_witness :
    ((newStringIdMap.StringToId "A").2).Inv
    ∧ newStringIdMap.StringToId "" = (0, newStringIdMap)
    ∧ (((newStringIdMap.StringToId "A").2).s_map.lookup "A" = some 1 ↔
        ((newStringIdMap.StringToId "A").2).i_map.lookup 1 = some "A") := by
  refine ⟨C9_nameIdMap_invariant.2.1 newStringIdMap "A" C9_nameIdMap_invariant.1,
    C9_nameIdMap_invariant.2.2.1 newStringIdMap, ?_⟩
  exact C9_nameIdMap_invariant.2.2.2.2.2.1 ((newStringIdMap.StringToId "A").2)
    (C9_nameIdMap_invariant.2.1 newStringIdMap "A" C9_nameIdMap_invariant.1) "A" 1

-- Go string comparison (byte-wise lexicographic; embedded character-wise,
-- which coincides on the ASCII data the resolver handles).

def lexLt : List Char → List Char → Bool
  | [], [] => false
  | [], _ :: _ => true
  | _ :: _, [] => false
  | a :: as, b :: bs =>
    if a.toNat < b.toNat then true
    else if b.toNat < a.toNat then false
    else lexLt as bs

/-- Go strict string comparison a < b. -/
def strLt (a b : String) : Bool := lexLt a.toList b.toList

/-- Go string comparison a <= b, as the negation of b < a. -/
def strLe (a b : String) : Bool := ! strLt b a

/-- Packages.Less (doc.go) compares PackageName with Go string <.
The non-strict form used for sorting. -/
def pkgLe (a b : Package) : Prop := strLe a.packageName b.packageName = true

instance : DecidableRel pkgLe := fun a b => by unfold pkgLe; infer_instance

/-- The reversed comparison used by sort.Reverse for ResolveSortLow. -/
def pkgGe (a b : Package) : Prop := strLe b.packageName a.packageName = true

instance : DecidableRel pkgGe := fun a b => by unfold pkgGe; infer_instance

/-- sort.Sort(flat) with Packages.Less: ascending by package name.
sort.Sort is an unspecified comparison sort; on the duplicate-free name
lists produced by flattenDependencies every comparison sort yields the
same list, so insertion sort is a faithful embedding. -/
def sortPackagesAsc (l : List Package) : List Package := l.insertionSort pkgLe

/-- sort.Sort(sort.Reverse(flat)): descending by package name. -/
def sortPackagesDesc (l : List Package) : List Package := l.insertionSort pkgGe

-- Go map insert-or-replace on an association list.

def upsert {α β : Type _} [BEq α] : List (α × β) → α → β → List (α × β)
  | [], k, v => [(k, v)]
  | (k2, v2) :: rest, k, v =>
    if k2 == k then (k, v) :: rest else (k2, v2) :: upsert rest k v

/-- A set of Packagers keyed by package name (packageSet in doc.go). -/
abbrev packageSet := List (String × Package)

/-- ProductMap tracks Product names to package sets and Package names to
Packages (doc.go). -/
structure ProductMap where
  prods : List (String × packageSet)
  pkgs : List (String × Package)
deriving DecidableEq

/-- NewProductMap (doc.go). -/
def NewProductMap : ProductMap := ⟨[], []⟩

/-- Add a Package to the mapping, organized by its Product name (doc.go). -/
def ProductMap.Add (m : ProductMap) (p : Package) : ProductMap :=
  let prodName := p.product
  let pkgName := p.packageName
  let prods :=
    match (m.prods).lookup prodName with
    | none => m.prods ++ [(prodName, [(pkgName, p)])]
    | some set => upsert m.prods prodName (upsert set pkgName p)
  ⟨prods, upsert m.pkgs pkgName p⟩

/-- Packages retrieves all Packages mapped by a Product name; Go returns
nil for an unknown product, modelled as none.  Go map iteration order is
unspecified; insertion order is the admissible order used here. -/
def ProductMap.Packages (m : ProductMap) (productName : String) : Option (List Package) :=
  ((m.prods).lookup productName).map (fun set => set.map Prod.snd)

/-- PackageByName looks up a Package by its PackageName; a non-nil Go
error is modelled by Except.error (doc.go). -/
def ProductMap.PackageByName (m : ProductMap) (packageName : String) : Except String Package :=
  match (m.pkgs).lookup packageName with
  | some p => .ok p
  | none => .error ("Package " ++ packageName ++ " does not exist")

/-- flattenDependencies (doc.go): every reference to every Packager,
deduplicated through a Go map keyed by package name.  The value list is
read back in insertion order (one admissible Go map iteration order); the
callers sort it by name, and the key set is duplicate-free, so the claims
below never depend on this order. -/
def flattenDependencies (deps : List Dependency) : List Package :=
  let packMap := deps.foldl
    (fun (pm : List (String × Package)) d =>
      let pm := upsert pm d.target.packageName d.target
      d.requires.foldl
        (fun pm verList =>
          verList.foldl (fun pm ver => upsert pm ver.packageName ver) pm) pm)
    []
  packMap.map Prod.snd

/-- packagesToIds (doc.go); StringToId can mutate the map, so the updated
map is returned alongside the ids. -/
def packagesToIds : List Package → stringIdMap → List Literal × stringIdMap
  | [], m => ([], m)
  | p :: rest, m =>
    let r1 := m.StringToId p.packageName
    let r2 := packagesToIds rest r1.2
    (r1.1 :: r2.1, r2.2)

abbrev Clause := List Literal
abbrev Formula := List Clause

/-- The sort-mode enum (resolver.go). -/
inductive resolveSort
  | ResolveSortNone
  | ResolveSortLow
  | ResolveSortHigh
deriving DecidableEq

/-- The pre-interning pass of Initialize (resolver.go lines 114-125):
when a sort mode is set, flatten the index, sort it (reversed ascending
for ResolveSortLow, plain ascending for ResolveSortHigh) and intern every
package name in that order. -/
def preloadIdMap (sortMode : resolveSort) (index : List Dependency)
    (idMap : stringIdMap) : stringIdMap :=
  if sortMode = .ResolveSortNone then idMap
  else
    let flat := flattenDependencies index
    let flat := if sortMode = .ResolveSortLow then sortPackagesDesc flat
      else sortPackagesAsc flat
    flat.foldl (fun m pack => (m.StringToId pack.packageName).2) idMap

/-- Inner loop of Initialize over one requirement group (resolver.go
lines 147-151): intern each alternative, collect its id, register it in
the Product Map. -/
def internGroup : List Package → stringIdMap → ProductMap →
    List Literal × stringIdMap × ProductMap
  | [], m, pm => ([], m, pm)
  | p :: ps, m, pm =>
    let r := m.StringToId p.packageName
    let rest := internGroup ps r.2 (pm.Add p)
    (r.1 :: rest.1, rest.2)

/-- Loop of Initialize over the requirement groups of one dependency
(resolver.go lines 142-154): one clause (-tid :: group ids) per group. -/
def addDepGroups : List (List Package) → Literal → stringIdMap → ProductMap →
    stringIdMap × ProductMap × Formula
  | [], _, m, pm => (m, pm, [])
  | g :: gs, tid, m, pm =>
    let r := internGroup g m pm
    let rest := addDepGroups gs tid r.2.1 r.2.2
    (rest.1, rest.2.1, ((-tid) :: r.1) :: rest.2.2)

/-- Main loop of Initialize over the index (resolver.go lines 134-155):
intern the target, register it, then emit one clause per group. -/
def addDepClauses : List Dependency → stringIdMap → ProductMap →
    stringIdMap × ProductMap × Formula
  | [], m, pm => (m, pm, [])
  | dep :: rest, m, pm =>
    let r := m.StringToId dep.target.packageName
    let g := addDepGroups dep.requires r.1 r.2 (pm.Add dep.target)
    let r2 := addDepClauses rest g.1 g.2.1
    (r2.1, r2.2.1, g.2.2 ++ r2.2.2)

/-- Product of the integers a, a+1, ..., up through the given count of
factors; big.Int.MulRange(a, b) is mulRangeAux a (b+1-a).toNat. -/
def mulRangeAux (a : Int) : Nat → Int
  | 0 => 1
  | k + 1 => a * mulRangeAux (a + 1) k

/-- big.Int.MulRange(a, b): the product of all integers in [a, b]; 1 when
a > b (empty product). -/
def mulRange (a b : Int) : Int := mulRangeAux a (b + 1 - a).toNat

/-- numCombos (resolver.go): n! / ((n-2)! * 2) computed with big.Int;
big.Int.Div is Euclidean division, exactly Lean's Int division. -/
def numCombos (n : Int) : Int :=
  let t := mulRange 1 n
  let b1 := mulRange 1 (n - 2)
  let b2 : Int := 2
  t / (b1 * b2)

/-- buildConflictClauses (resolver.go): all pairwise clauses
[-lits[x], -lits[y]] for x < y, in the nested-loop order of the source.
The source preallocates a slice of length numCombos(len(lits)) and fills
it sequentially; numCombos_eq below shows that length matches the number
of pairs, so the sequential fill is the list built here. -/
def buildConflictClauses (lits : List Literal) : List Clause :=
  let count := lits.length
  if count ≤ 1 then []
  else
    (List.range (count - 1)).flatMap (fun x =>
      (List.range' (x + 1) (count - (x + 1))).map (fun y =>
        [-(lits.getD x 0), -(lits.getD y 0)]))

/-- Conflict pass of Initialize (resolver.go lines 157-168): for every
product in the Product Map, map its packages to ids and append the
pairwise conflict clauses.  The nil-version-list error branch is
unreachable for keys obtained from the map itself and is dropped. -/
def addConflictClauses : List (String × packageSet) → stringIdMap → stringIdMap × Formula
  | [], m => (m, [])
  | entry :: rest, m =>
    let r := packagesToIds (entry.2.map Prod.snd) m
    let r2 := addConflictClauses rest r.2
    (r2.1, buildConflictClauses r.1 ++ r2.2)

/-- The Resolver state relevant to the embedded claims (resolver.go).
The pigosat handle is external; the formula built by Initialize is
returned separately, and solver answers are passed into Resolve. -/
structure Resolver where
  idMap : stringIdMap
  prodMap : ProductMap
  requires : List Package
  solution : List Package
deriving DecidableEq

/-- pigosat solve status. -/
inductive Status
  | Satisfiable
  | Unsatisfiable
  | Unknown
deriving DecidableEq

/-- Initialize (resolver.go): fresh maps, optional pre-interning pass,
dependency clauses, then per-product conflict clauses.  Returns the
resolver state together with the formula handed to AddClauses. -/
def Initialize (requires : List Package) (index : List Dependency)
    (sortMode : resolveSort) : Resolver × Formula :=
  let idMap := preloadIdMap sortMode index newStringIdMap
  let r := addDepClauses index idMap NewProductMap
  let c := addConflictClauses r.2.1.prods r.1
  (⟨c.1, r.2.1, requires, []⟩, r.2.2 ++ c.2)

/-- addRequires (resolver.go): intern every requirement name and assume
its literal; the assumption list is returned in order. -/
def addRequires : List Package → stringIdMap → List Literal × stringIdMap
  | [], m => ([], m)
  | p :: ps, m =>
    let r := m.StringToId p.packageName
    let rest := addRequires ps r.2
    (r.1 :: rest.1, rest.2)

/-- The model-decoding loop of Resolve (resolver.go lines 230-239): scan
the model from index 1 up, look up the name then the Package of every
true variable, append it to the solution; a failed lookup aborts with the
error and the partial solution. -/
def decodeLoop (m : stringIdMap) (pm : ProductMap) (model : List Bool) :
    List Nat → List Package → Option String × List Package
  | [], acc => (none, acc)
  | i :: rest, acc =>
    if model.getD i false then
      let pkgName := m.IdToString ((i : Nat) : Int)
      match pm.PackageByName pkgName with
      | .error e =>
        (some ("Resolve failed to look up package by name " ++ pkgName ++ ": " ++ e), acc)
      | .ok pkg => decodeLoop m pm model rest (acc ++ [pkg])
    else decodeLoop m pm model rest acc

/-- Resolve (resolver.go): clear the cached solution, push the current
requirements as assumptions (interning any new name), then act on the
solver status: non-Satisfiable gives (false, nil); Satisfiable decodes
the model.  The (status, model) pair returned by the external solver is
an input here. -/
def Resolve (r : Resolver) (status : Status) (model : List Bool) :
    Bool × Option String × Resolver :=
  let r0 : Resolver := ⟨r.idMap, r.prodMap, r.requires, []⟩
  let ar := addRequires r0.requires r0.idMap
  let r1 : Resolver := ⟨ar.2, r0.prodMap, r0.requires, r0.solution⟩
  if status ≠ Status.Satisfiable then (false, none, r1)
  else
    let d := decodeLoop r1.idMap r1.prodMap model (List.range' 1 (model.length - 1)) []
    match d.1 with
    | some e => (false, some e, ⟨r1.idMap, r1.prodMap, r1.requires, d.2⟩)
    | none => (true, none, ⟨r1.idMap, r1.prodMap, r1.requires, d.2⟩)

/-- Solution returns the last resolved solution (resolver.go). -/
def Resolver.Solution (r : Resolver) : List Package := r.solution

-- Core Interpreter (cnfToPackageRelations, resolver.go lines 384-476).

/-- The Relation tag (doc.go); the Go values are strings, only these four
constants exist. -/
inductive Relation
  | Required
  | Conflicts
  | Depends
  | Restricts
deriving DecidableEq

/-- PackageRelation (doc.go). -/
structure PackageRelation where
  Packages : List Package
  Relates : Relation
deriving DecidableEq

/-- ASCII fragment of unicode.IsSpace, the separator set of
strings.Fields; the parsed streams are ASCII. -/
def isSpaceGo (c : Char) : Bool :=
  c = ' ' || c = '\t' || c = '\n' || c = '\r' || c.toNat = 11 || c.toNat = 12

def fieldsAux : List Char → List Char → List String
  | [], cur => if cur.isEmpty then [] else [String.mk cur.reverse]
  | c :: rest, cur =>
    if isSpaceGo c then
      if cur.isEmpty then fieldsAux rest []
      else String.mk cur.reverse :: fieldsAux rest []
    else fieldsAux rest (c :: cur)

/-- strings.Fields: split around runs of whitespace. -/
def goFields (s : String) : List String := fieldsAux s.toList []

def digitsToNat : List Char → Nat → Nat
  | [], acc => acc
  | c :: rest, acc => digitsToNat rest (acc * 10 + (c.toNat - 48))

/-- strconv.ParseInt(s, 10, 32): optional sign, decimal digits, 32-bit
range check; any failure (Go returns a non-nil error) is none. -/
def parseIntGo (s : String) : Option Int :=
  match s.toList with
  | [] => none
  | c :: rest =>
    let signDigits : Bool × List Char :=
      if c = '-' then (true, rest)
      else if c = '+' then (false, rest)
      else (false, c :: rest)
    let digits := signDigits.2
    if digits.isEmpty then none
    else if digits.all (fun d => '0' ≤ d && d ≤ '9') then
      let v : Int := Int.ofNat (digitsToNat digits 0)
      let iv : Int := if signDigits.1 then -v else v
      if -(2 ^ 31) ≤ iv ∧ iv ≤ 2 ^ 31 - 1 then some iv else none
    else none

/-- Outcome of the literal-collection loop over one clause line
(resolver.go lines 422-435): the Go slice store lits[i] panics when the
index reaches len(fields)-1, which the panic constructor records. -/
inductive LitsOut
  | ok (lits : List Int) (negs : Nat)
  | err (msg : String)
  | panic
deriving DecidableEq

def litsLoop : List String → Nat → List Int → Nat → LitsOut
  | [], _, lits, negs => .ok lits negs
  | f :: rest, i, lits, negs =>
    if f = "0" then litsLoop rest (i + 1) lits negs
    else
      match parseIntGo f with
      | none => .err ("Error parsing int " ++ f ++ " from line")
      | some v =>
        let negs2 := if v < 0 then negs + 1 else negs
        if i < lits.length then litsLoop rest (i + 1) (lits.set i v) negs2
        else .panic

/-- sort.Ints: ascending; unique result, algorithm immaterial. -/
def sortInts (l : List Int) : List Int := l.insertionSort (fun a b => a ≤ b)

/-- The paks loop (resolver.go lines 439-445): map every literal through
IdToString and PackageByName. -/
def litsToPaks (m : stringIdMap) (pm : ProductMap) : List Int → Except String (List Package)
  | [] => .ok []
  | l :: rest =>
    match pm.PackageByName (m.IdToString l) with
    | .error _ =>
      .error "Unexpected literal in line could not be mapped back to Package name"
    | .ok p =>
      match litsToPaks m pm rest with
      | .error e => .error e
      | .ok ps => .ok (p :: ps)

/-- The clause classification of cnfToPackageRelations (resolver.go lines
447-464), applied to the sorted literal list and the count of negative
parsed literals. -/
def classifyGo (lits : List Int) (negs : Nat) : Except String Relation :=
  if lits.length = 1 then
    if 0 < lits.getD 0 0 then .ok .Required else .ok .Restricts
  else if negs = 1 then .ok .Depends
  else if 1 < negs then .ok .Conflicts
  else .error "Unhandled clause type"

/-- Parser state: the relations slice (sized by the preamble; nil slots
are the zero-value pointers Go leaves in place) and the running clause
counter. -/
structure PState where
  rels : List (Option PackageRelation)
  clause : Nat
deriving DecidableEq

/-- Outcome of cnfToPackageRelations.  Go panics are modelled explicitly:
panicRels is the out-of-range store rels[clause], panicLits the
out-of-range store lits[i], panicMake a make() with negative size. -/
inductive ParseOut
  | ok (rels : List (Option PackageRelation))
  | err (msg : String)
  | panicRels
  | panicLits
  | panicMake
deriving DecidableEq

/-- Initial parser state: the rels slice is a nil PackageRelations, of
length 0. -/
def initialPState : PState := ⟨[], 0⟩

/-- cnfToPackageRelations (resolver.go): line dispatch on the first
character, preamble sizing, per-line clause parsing, classification and
store at the running clause index. -/
def parseLines (m : stringIdMap) (pm : ProductMap) : List String → PState → ParseOut
  | [], st => .ok st.rels
  | line :: rest, st =>
    if line.length = 0 then parseLines m pm rest st
    else if line.front = 'c' then parseLines m pm rest st
    else if line.front = 'p' then
      match parseIntGo ((goFields line).getLastD "") with
      | none => .err ("invalid preamble size in line: " ++ line)
      | some size =>
        if size < 0 then .panicMake
        else parseLines m pm rest ⟨List.replicate size.toNat none, st.clause⟩
    else
      let fs := goFields line
      if fs.length = 0 then
        .err ("Expected to parse literals, but got none in line: " ++ line)
      else
        match litsLoop fs 0 (List.replicate (fs.length - 1) 0) 0 with
        | .err e => .err e
        | .panic => .panicLits
        | .ok lits negs =>
          let sorted := sortInts lits
          match litsToPaks m pm sorted with
          | .error e => .err e
          | .ok paks =>
            match classifyGo sorted negs with
            | .error e => .err (e ++ " for line: " ++ line)
            | .ok rel =>
              if st.clause < st.rels.length then
                parseLines m pm rest
                  ⟨st.rels.set st.clause (some ⟨paks, rel⟩), st.clause + 1⟩
              else .panicRels

-- Sortedness facts about sortInts.

theorem sortInts_perm (l : List Int) : (sortInts l).Perm l :=
  List.perm_insertionSort _ l

theorem sortInts_sorted (l : List Int) : List.Sorted (fun a b => a ≤ b) (sortInts l) :=
  List.sorted_insertionSort _ l

theorem sortInts_head_le {l : List Int} {h a : Int}
    (hh : (sortInts l).head? = some h) (ha : a ∈ l) : h ≤ a := by
  have hmem : a ∈ sortInts l := (sortInts_perm l).mem_iff.mpr ha
  cases hs : sortInts l with
  | nil => rw [hs] at hmem; simp at hmem
  | cons x xs =>
    rw [hs] at hh hmem
    have hx : x = h := by simpa using hh
    subst hx
    rcases List.mem_cons.mp hmem with h1 | h1
    · omega
    · exact List.rel_of_sorted_cons (hs ▸ sortInts_sorted l) a h1

-- Arithmetic facts about mulRange and numCombos.

theorem mulRangeAux_top (k : Nat) : ∀ a : Int,
    mulRangeAux a (k + 1) = mulRangeAux a k * (a + (k : Int)) := by
  induction k with
  | zero => intro a; simp [mulRangeAux]
  | succ k ih =>
    intro a
    have h1 : mulRangeAux a (k + 1 + 1) = a * mulRangeAux (a + 1) (k + 1) := rfl
    rw [h1, ih (a + 1)]
    have h2 : mulRangeAux a (k + 1) = a * mulRangeAux (a + 1) k := rfl
    rw [h2]
    push_cast
    ring

theorem mulRangeAux_one_factorial (k : Nat) :
    mulRangeAux 1 k = ((Nat.factorial k : Nat) : Int) := by
  induction k with
  | zero => simp [mulRangeAux, Nat.factorial]
  | succ k ih =>
    rw [mulRangeAux_top k 1, ih, Nat.factorial_succ]
    push_cast
    ring

theorem mulRange_one_eq_factorial (n : Nat) :
    mulRange 1 (n : Int) = ((Nat.factorial n : Nat) : Int) := by
  unfold mulRange
  have h : ((n : Int) + 1 - 1).toNat = n := by omega
  rw [h, mulRangeAux_one_factorial]

/-- numCombos n equals n*(n-1)/2 for n at least 2. -/
theorem numCombos_eq (n : Nat) (h : 2 ≤ n) :
    numCombos (n : Int) = ((n * (n - 1) / 2 : Nat) : Int) := by
  obtain ⟨m, rfl⟩ : ∃ m, n = m + 2 := ⟨n - 2, by omega⟩
  unfold numCombos
  have h1 : ((m + 2 : Nat) : Int) - 2 = ((m : Nat) : Int) := by push_cast; ring
  rw [mulRange_one_eq_factorial (m + 2), h1, mulRange_one_eq_factorial m]
  have hfac : Nat.factorial (m + 2) = Nat.factorial m * ((m + 1) * (m + 2)) := by
    rw [Nat.factorial_succ, Nat.factorial_succ]
    ring
  rw [hfac]
  have hpos : (0 : Int) < (Nat.factorial m : Int) := by
    exact_mod_cast Nat.factorial_pos m
  push_cast
  rw [Int.mul_ediv_mul_of_pos _ _ hpos]
  congr 1
  ring

-- Length of buildConflictClauses.

theorem sum_map_add_one (l : List Nat) (f : Nat → Nat) :
    (l.map (fun x => f x + 1)).sum = (l.map f).sum + l.length := by
  induction l with
  | nil => simp
  | cons a t ih => simp [ih]; omega

theorem sum_range_sub (k : Nat) :
    2 * ((List.range k).map (fun x => k - x)).sum = k * (k + 1) := by
  induction k with
  | zero => simp
  | succ k ih =>
    rw [List.range_succ, List.map_append, List.sum_append]
    have hmap : (List.range k).map (fun x => k + 1 - x)
        = (List.range k).map (fun x => (k - x) + 1) := by
      apply List.map_congr_left
      intro a ha
      have := List.mem_range.mp ha
      omega
    rw [hmap, sum_map_add_one]
    simp only [List.map_cons, List.map_nil, List.sum_cons, List.sum_nil, List.length_range]
    have hlast : k + 1 - k = 1 := by omega
    rw [hlast]
    calc 2 * (((List.range k).map (fun x => k - x)).sum + k + (1 + 0))
        = 2 * ((List.range k).map (fun x => k - x)).sum + 2 * k + 2 := by ring
      _ = k * (k + 1) + 2 * k + 2 := by rw [ih]
      _ = (k + 1) * (k + 1 + 1) := by ring

theorem buildConflictClauses_length (lits : List Literal) :
    2 * (buildConflictClauses lits).length = lits.length * (lits.length - 1) := by
  unfold buildConflictClauses
  by_cases hc : lits.length ≤ 1
  · rw [if_pos hc]
    have h01 : lits.length = 0 ∨ lits.length = 1 := by omega
    rcases h01 with h | h <;> simp [h]
  · rw [if_neg hc]
    rw [List.length_flatMap]
    have hmap : (List.range (lits.length - 1)).map
          (List.length ∘ fun x => (List.range' (x + 1) (lits.length - (x + 1))).map
            (fun y => [-(lits.getD x 0), -(lits.getD y 0)]))
        = (List.range (lits.length - 1)).map (fun x => (lits.length - 1) - x) := by
      apply List.map_congr_left
      intro a ha
      simp only [Function.comp, List.length_map, List.length_range']
      omega
    rw [hmap]
    have := sum_range_sub (lits.length - 1)
    rw [this]
    have h1 : lits.length - 1 + 1 = lits.length := by omega
    rw [h1, Nat.mul_comm]

theorem mem_buildConflictClauses (lits : List Literal) (c : Clause)
    (hlen : 2 ≤ lits.length) :
    c ∈ buildConflictClauses lits ↔
      ∃ i j, i < j ∧ j < lits.length ∧ c = [-(lits.getD i 0), -(lits.getD j 0)] := by
  unfold buildConflictClauses
  rw [if_neg (by omega)]
  simp only [List.mem_flatMap, List.mem_map, List.mem_range, List.mem_range'_1]
  constructor
  · rintro ⟨x, hx, y, hy, rfl⟩
    exact ⟨x, y, by omega, by omega, rfl⟩
  · rintro ⟨i, j, hij, hj, rfl⟩
    exact ⟨i, by omega, j, ⟨by omega, by omega⟩, rfl⟩

/-- C2: for a product with n packages the encoder emits exactly
n*(n-1)/2 pairwise at-most-one clauses, namely the two-literal clause
(-id(qi), -id(qj)) for every pair i < j of positions in the product's id
list; for n at most 1 it emits none.  numCombos, used by the source to
presize the clause slice, equals the same quantity. -/
theorem C2_at_most_one_pairwise_clauses :
    (∀ lits : List Literal, lits.length ≤ 1 → buildConflictClauses lits = [])
    ∧ (∀ lits : List Literal,
        (buildConflictClauses lits).length = lits.length * (lits.length - 1) / 2)
    ∧ (∀ (lits : List Literal) (c : Clause), 2 ≤ lits.length →
        (c ∈ buildConflictClauses lits ↔
          ∃ i j, i < j ∧ j < lits.length ∧ c = [-(lits.getD i 0), -(lits.getD j 0)]))
    ∧ (∀ n : Nat, 2 ≤ n → numCombos (n : Int) = ((n * (n - 1) / 2 : Nat) : Int)) := by
  refine ⟨?_, ?_, mem_buildConflictClauses, numCombos_eq⟩
  · intro lits h
    unfold buildConflictClauses
    rw [if_pos h]
  · intro lits
    have := buildConflictClauses_length lits
    omega

/-- Witness for C2 on the three-id product [1, 2, 3]. -/
theorem C2_at_most_one_pairwise_clauses_witness :
    buildConflictClauses [(7 : Int)] = []
    ∧ ([-1, -3] ∈ buildConflictClauses [(1 : Int), 2, 3] ↔
        ∃ i j, i < j ∧ j < 3 ∧ ([-1, -3] : Clause)
          = [-(([(1 : Int), 2, 3]).getD i 0), -(([(1 : Int), 2, 3]).getD j 0)])
    ∧ numCombos ((3 : Nat) : Int) = ((3 * (3 - 1) / 2 : Nat) : Int) := by
  refine ⟨C2_at_most_one_pairwise_clauses.1 [7] (by decide), ?_, ?_⟩
  · have := C2_at_most_one_pairwise_clauses.2.2.1 [1, 2, 3] [-1, -3] (by decide)
    simpa using this
  · exact C2_at_most_one_pairwise_clauses.2.2.2 3 (by decide)

/-- C8: whenever the underlying solve returns any non-Satisfiable status,
Resolve returns the pair (false, nil): unsatisfiability is a normal
outcome, never surfaced as an error value. -/
theorem C8_unsat_is_false_nil (r : Resolver) (status : Status) (model : List Bool)
    (h : status ≠ Status.Satisfiable) :
    (Resolve r status model).1 = false ∧ (Resolve r status model).2.1 = none := by
  unfold Resolve
  rw [if_pos h]
  exact ⟨rfl, rfl⟩

/-- Witness for C8 at a concrete resolver and the Unsatisfiable status. -/
theorem C8_unsat_is_false_nil_witness :
    (Resolve (Initialize [] [] .ResolveSortNone).1 Status.Unsatisfiable []).1 = false
    ∧ (Resolve (Initialize [] [] .ResolveSortNone).1 Status.Unsatisfiable []).2.1 = none :=
  C8_unsat_is_false_nil _ Status.Unsatisfiable [] (by decide)

/-- C4: classification of a parsed clause line over its nonzero literals
(resolver.go lines 447-464).  negs is the count of negative parsed
literals, as accumulated by the parsing loop; classifyGo receives the
ascending-sorted literals.  Exactly one positive literal gives Required;
exactly one negative literal gives Restricted; two or more literals with
exactly one negative give Depends whose subject (head of the sorted
list, hence first Package of the relation) is the negated literal; two
or more literals with at least two negatives give Conflicts; any other
shape (no literals, or two or more literals none negative) is the hard
error "Unhandled clause type". -/
theorem C4_core_clause_classification (lits : List Int)
    (h0 : ∀ l2 ∈ lits, l2 ≠ 0) :
    ((lits.length = 1 → (∀ l2 ∈ lits, 0 < l2) →
      classifyGo (sortInts lits) (lits.countP (fun l2 => decide (l2 < 0))) = .ok .Required)
    ∧ (lits.length = 1 → (∀ l2 ∈ lits, l2 < 0) →
      classifyGo (sortInts lits) (lits.countP (fun l2 => decide (l2 < 0))) = .ok .Restricts)
    ∧ (2 ≤ lits.length → lits.countP (fun l2 => decide (l2 < 0)) = 1 →
      classifyGo (sortInts lits) (lits.countP (fun l2 => decide (l2 < 0))) = .ok .Depends
      ∧ ∃ hd, (sortInts lits).head? = some hd ∧ hd < 0 ∧ hd ∈ lits)
    ∧ (2 ≤ lits.length → 2 ≤ lits.countP (fun l2 => decide (l2 < 0)) →
      classifyGo (sortInts lits) (lits.countP (fun l2 => decide (l2 < 0))) = .ok .Conflicts)
    ∧ (2 ≤ lits.length → lits.countP (fun l2 => decide (l2 < 0)) = 0 →
      classifyGo (sortInts lits) (lits.countP (fun l2 => decide (l2 < 0)))
        = .error "Unhandled clause type")
    ∧ (lits = [] →
      classifyGo (sortInts lits) (lits.countP (fun l2 => decide (l2 < 0)))
        = .error "Unhandled clause type")) := by
  have hperm := sortInts_perm lits
  have hlen : (sortInts lits).length = lits.length := hperm.length_eq
  refine ⟨?_, ?_, ?_, ?_, ?_, ?_⟩
  · intro h1 hpos
    obtain ⟨a, ha⟩ := List.length_eq_one.mp (hlen.trans h1)
    have hmem : a ∈ lits := hperm.mem_iff.mp (ha ▸ List.mem_singleton_self a)
    unfold classifyGo
    rw [if_pos (hlen.trans h1), ha]
    simp only [List.getD]
    rw [if_pos (by simpa using hpos a hmem)]
  · intro h1 hneg
    obtain ⟨a, ha⟩ := List.length_eq_one.mp (hlen.trans h1)
    have hmem : a ∈ lits := hperm.mem_iff.mp (ha ▸ List.mem_singleton_self a)
    unfold classifyGo
    rw [if_pos (hlen.trans h1), ha]
    simp only [List.getD]
    rw [if_neg (by have := hneg a hmem; simp; omega)]
  · intro h2 hn1
    constructor
    · unfold classifyGo
      rw [if_neg (by omega), if_pos hn1]
    · have hex : ∃ a ∈ lits, a < 0 := by
        have : 0 < lits.countP (fun l2 => decide (l2 < 0)) := by omega
        obtain ⟨a, ha, hp⟩ := List.countP_pos_iff.mp this
        exact ⟨a, ha, by simpa using hp⟩
      obtain ⟨a, ha, haneg⟩ := hex
      have hne : sortInts lits ≠ [] := by
        intro hnil
        rw [hnil] at hlen
        simp at hlen
        omega
      obtain ⟨hd, rest, hcons⟩ := List.exists_cons_of_ne_nil hne
      refine ⟨hd, by rw [hcons]; rfl, ?_, ?_⟩
      · have := sortInts_head_le (l := lits) (by rw [hcons]; rfl) ha
        omega
      · exact hperm.mem_iff.mp (hcons ▸ List.mem_cons_self hd rest)
  · intro h2 hn2
    unfold classifyGo
    rw [if_neg (by omega), if_neg (by omega), if_pos (by omega)]
  · intro h2 hn0
    unfold classifyGo
    rw [if_neg (by omega), if_neg (by omega), if_neg (by omega)]
  · intro hnil
    subst hnil
    rfl

/-- Witness for C4 on a positive unit clause and on a two-negative
clause. -/
theorem C4_core_clause_classification_witness :
    classifyGo (sortInts [(3 : Int)])
        (([(3 : Int)]).countP (fun l2 => decide (l2 < 0))) = .ok .Required
    ∧ classifyGo (sortInts [(-1 : Int), -2, 3])
        (([(-1 : Int), -2, 3]).countP (fun l2 => decide (l2 < 0))) = .ok .Conflicts :=
  ⟨(C4_core_clause_classification [3] (by decide)).1 (by decide) (by decide),
   (C4_core_clause_classification [-1, -2, 3] (by decide)).2.2.2.1 (by decide) (by decide)⟩

/-- The resolver state of a three-product index, interning A-1, B-1, C-1
as ids 1, 2, 3. -/
def C5resolver : Resolver :=
  (Initialize [] [⟨⟨"A", "1"⟩, []⟩, ⟨⟨"B", "1"⟩, []⟩, ⟨⟨"C", "1"⟩, []⟩] .ResolveSortNone).1

/-- Counterexample to C5: in the clausal-core clause "-1 -2 3 0" the
negated packages are A-1 (id 1) and B-1 (id 2); the claim says the
subject is the lowest-id negated package A-1, but the ascending integer
sort puts -2 first, so the produced Conflicts relation has subject B-1,
the highest-id negated package. -/
theorem C5_counterexample :
    parseLines C5resolver.idMap C5resolver.prodMap ["p cnf 3 1", "-1 -2 3 0"] initialPState
      = .ok [some ⟨[⟨"B", "1"⟩, ⟨"A", "1"⟩, ⟨"C", "1"⟩], .Conflicts⟩]
    ∧ C5resolver.idMap.GetId "A-1" = some 1
    ∧ C5resolver.idMap.GetId "B-1" = some 2
    ∧ (⟨"B", "1"⟩ : Package) ≠ ⟨"A", "1"⟩ := by decide

/-- C5 amended: a clausal-core clause with at least two literals of
which at least two are negative is classified Conflicts after the
ascending literal sort, and the subject (head of the sorted list) is the
minimum literal: it is negative, it is one of the parsed literals, and
it is the most negative literal, i.e. the negated package with the
GREATEST id, not the lowest. -/
theorem C5_conflict_subject_is_greatest_negated_id (lits : List Int)
    (h0 : ∀ l2 ∈ lits, l2 ≠ 0) (hlen : 2 ≤ lits.length)
    (hneg : 2 ≤ lits.countP (fun l2 => decide (l2 < 0))) :
    classifyGo (sortInts lits) (lits.countP (fun l2 => decide (l2 < 0))) = .ok .Conflicts
    ∧ ∃ hd, (sortInts lits).head? = some hd ∧ hd < 0 ∧ hd ∈ lits
        ∧ ∀ l2 ∈ lits, l2 < 0 → hd ≤ l2 := by
  have hperm := sortInts_perm lits
  have hlen2 : (sortInts lits).length = lits.length := hperm.length_eq
  refine ⟨(C4_core_clause_classification lits h0).2.2.2.1 hlen hneg, ?_⟩
  have hex : ∃ a ∈ lits, a < 0 := by
    have : 0 < lits.countP (fun l2 => decide (l2 < 0)) := by omega
    obtain ⟨a, ha, hp⟩ := List.countP_pos_iff.mp this
    exact ⟨a, ha, by simpa using hp⟩
  obtain ⟨a, ha, haneg⟩ := hex
  have hne : sortInts lits ≠ [] := by
    intro hnil
    rw [hnil] at hlen2
    simp at hlen2
    omega
  obtain ⟨hd, rest, hcons⟩ := List.exists_cons_of_ne_nil hne
  refine ⟨hd, by rw [hcons]; rfl, ?_, ?_, ?_⟩
  · have := sortInts_head_le (l := lits) (by rw [hcons]; rfl) ha
    omega
  · exact hperm.mem_iff.mp (hcons ▸ List.mem_cons_self hd rest)
  · intro l2 hl2 _
    exact sortInts_head_le (l := lits) (by rw [hcons]; rfl) hl2

/-- Witness for the amended C5 on the clause literals [-1, -2, 3]. -/
theorem C5_conflict_subject_witness :
    classifyGo (sortInts [(-1 : Int), -2, 3])
        (([(-1 : Int), -2, 3]).countP (fun l2 => decide (l2 < 0))) = .ok .Conflicts
    ∧ ∃ hd, (sortInts [(-1 : Int), -2, 3]).head? = some hd ∧ hd < 0
        ∧ hd ∈ [(-1 : Int), -2, 3] ∧ ∀ l2 ∈ [(-1 : Int), -2, 3], l2 < 0 → hd ≤ l2 :=
  C5_conflict_subject_is_greatest_negated_id [-1, -2, 3] (by decide) (by decide) (by decide)

instance {e a : Type _} [DecidableEq e] [DecidableEq a] : DecidableEq (Except e a) := fun x y =>
  match x, y with
  | .ok v, .ok w =>
    if h : v = w then isTrue (by rw [h]) else isFalse (fun hc => h (by injection hc))
  | .ok _, .error _ => isFalse (fun hc => Except.noConfusion hc)
  | .error _, .ok _ => isFalse (fun hc => Except.noConfusion hc)
  | .error v, .error w =>
    if h : v = w then isTrue (by rw [h]) else isFalse (fun hc => h (by injection hc))

theorem decodeLoop_err_head (m : stringIdMap) (pm : ProductMap) (model : List Bool)
    (i : Nat) (rest : List Nat) (acc : List Package) (e : String)
    (hi : model.getD i false = true)
    (he : pm.PackageByName (m.IdToString ((i : Nat) : Int)) = .error e) :
    decodeLoop m pm model (i :: rest) acc
      = (some ("Resolve failed to look up package by name "
          ++ m.IdToString ((i : Nat) : Int) ++ ": " ++ e), acc) := by
  unfold decodeLoop
  simp only [hi, if_pos, he]

/-- Decoding a model as the spec describes it: scan the model from index
1 upward and collect the Package of every variable assigned true. -/
def scanCollect (m : stringIdMap) (pm : ProductMap) (model : List Bool) : List Package :=
  (List.range' 1 (model.length - 1)).filterMap (fun i =>
    if model.getD i false then (pm.PackageByName (m.IdToString ((i : Nat) : Int))).toOption
    else none)

theorem decodeLoop_none (m : stringIdMap) (pm : ProductMap) (model : List Bool) :
    ∀ (idxs : List Nat) (acc res : List Package),
      decodeLoop m pm model idxs acc = (none, res) →
      res = acc ++ idxs.filterMap (fun i =>
        if model.getD i false then (pm.PackageByName (m.IdToString ((i : Nat) : Int))).toOption
        else none) := by
  intro idxs
  induction idxs with
  | nil =>
    intro acc res h
    simp only [decodeLoop] at h
    cases h
    simp
  | cons i rest ih =>
    intro acc res h
    unfold decodeLoop at h
    cases hgi : model.getD i false with
    | false =>
      rw [hgi] at h
      simp only [Bool.false_eq_true, if_false] at h
      rw [List.filterMap_cons]
      simp only [hgi, Bool.false_eq_true, if_false]
      exact ih acc res h
    | true =>
      rw [hgi] at h
      simp only [if_pos] at h
      cases hpb : pm.PackageByName (m.IdToString ((i : Nat) : Int)) with
      | error e => rw [hpb] at h; simp at h
      | ok p =>
        rw [hpb] at h
        have := ih (acc ++ [p]) res h
        rw [List.filterMap_cons]
        simp only [hgi, if_pos, hpb]
        simpa using this

theorem Resolve_sat_ok (r : Resolver) (model : List Bool)
    (hd : (decodeLoop (addRequires r.requires r.idMap).2 r.prodMap model
        (List.range' 1 (model.length - 1)) []).1 = none) :
    (Resolve r .Satisfiable model).1 = true
    ∧ ((Resolve r .Satisfiable model).2.2).Solution
        = scanCollect (addRequires r.requires r.idMap).2 r.prodMap model := by
  rcases hdd : decodeLoop (addRequires r.requires r.idMap).2 r.prodMap model
      (List.range' 1 (model.length - 1)) [] with ⟨fst, snd⟩
  have hfst : fst = none := by rw [hdd] at hd; exact hd
  subst hfst
  have hsnd := decodeLoop_none _ _ _ _ _ _ hdd
  unfold Resolve
  rw [if_neg (by simp)]
  simp only [hdd]
  constructor
  · trivial
  · simpa [Resolver.Solution, scanCollect] using hsnd

theorem Resolve_unsat_clears (r : Resolver) (status : Status) (model : List Bool)
    (h : status ≠ Status.Satisfiable) :
    ((Resolve r status model).2.2).Solution = [] := by
  unfold Resolve
  rw [if_pos h]
  rfl

/-- The resolver of claim C1: the index is empty and the single
requirement X-1 does not occur in it. -/
def C1resolver : Resolver := (Initialize [⟨"X", "1"⟩] [] .ResolveSortNone).1

/-- C1 amended: when the requirements contain a package name absent from
the index, addRequires interns it as a fresh variable (id 1 here),
unconstrained by any clause (the emitted formula is empty), and every
model honouring the assumption sets that variable true; but Resolve then
FAILS: decoding the model hits the PackageByName not-found error, Resolve
returns (false, non-nil error), and the solution is empty — the unknown
package never appears in a returned solution. -/
theorem C1_unknown_requirement_resolve_errors (model : List Bool)
    (hm : model.getD 1 false = true) :
    (Resolve C1resolver .Satisfiable model).1 = false
    ∧ ((Resolve C1resolver .Satisfiable model).2.1).isSome = true
    ∧ ((Resolve C1resolver .Satisfiable model).2.2).Solution = []
    ∧ (addRequires C1resolver.requires C1resolver.idMap).1 = [1]
    ∧ (Initialize [⟨"X", "1"⟩] [] .ResolveSortNone).2 = []
    ∧ C1resolver.prodMap.PackageByName "X-1"
        = .error "Package X-1 does not exist" := by
  have hlen : 1 < model.length := by
    by_contra hcon
    push_neg at hcon
    rw [List.getD_eq_default _ _ hcon] at hm
    exact Bool.false_ne_true hm
  obtain ⟨k, hk⟩ : ∃ k, model.length - 1 = k + 1 := ⟨model.length - 2, by omega⟩
  have hrange : List.range' 1 (model.length - 1) = 1 :: List.range' 2 k := by
    rw [hk]
    simpa using List.range'_succ 1 k 1
  have hdec := decodeLoop_err_head (addRequires C1resolver.requires C1resolver.idMap).2
    C1resolver.prodMap model 1 (List.range' 2 k) [] "Package X-1 does not exist" hm
    (by decide)
  have hres : Resolve C1resolver .Satisfiable model
      = (false, some ("Resolve failed to look up package by name X-1: "
          ++ "Package X-1 does not exist"),
        ⟨(addRequires C1resolver.requires C1resolver.idMap).2, C1resolver.prodMap,
          C1resolver.requires, []⟩) := by
    unfold Resolve
    rw [if_neg (by simp)]
    simp only [hrange, hdec]
    rfl
  rw [hres]
  refine ⟨rfl, rfl, rfl, by decide, by decide, by decide⟩

/-- Counterexample to C1 as stated: with the empty index and requirement
X-1, the only model of the empty formula honouring the assumption on the
fresh variable 1 is [_, true]; on it Resolve does NOT succeed (it
returns false with a lookup error) and the solution is empty rather than
containing the unknown package. -/
theorem C1_counterexample :
    (Resolve C1resolver .Satisfiable [false, true]).1 = false
    ∧ (Resolve C1resolver .Satisfiable [false, true]).2.1
        = some "Resolve failed to look up package by name X-1: Package X-1 does not exist"
    ∧ ((Resolve C1resolver .Satisfiable [false, true]).2.2).Solution = []
    ∧ (addRequires C1resolver.requires C1resolver.idMap).1 = [1]
    ∧ ([false, true].getD 1 false = true) := by decide

/-- Witness for the amended C1 at the concrete model [false, true]. -/
theorem C1_unknown_requirement_resolve_errors_witness :
    ([false, true].getD 1 false = true)
    ∧ (Resolve C1resolver .Satisfiable [false, true]).1 = false
    ∧ ((Resolve C1resolver .Satisfiable [false, true]).2.2).Solution = [] :=
  ⟨by decide, (C1_unknown_requirement_resolve_errors [false, true] (by decide)).1,
    (C1_unknown_requirement_resolve_errors [false, true] (by decide)).2.2.1⟩

/-- C7 amended: on a Satisfiable status whose model decodes without
error, Resolve returns true and stores exactly the packages collected by
scanning the model from variable index 1 upward, taking every variable
assigned true, in solver variable order; Solution returns that stored
value.  However, EVERY call to Resolve first clears the stored solution,
so after an intervening unsuccessful resolve (any non-Satisfiable
status) Solution returns the empty list, not the previous model. -/
theorem C7_solution_decoded_but_cleared_on_failure :
    (∀ (r : Resolver) (status : Status) (model : List Bool),
      status ≠ Status.Satisfiable → ((Resolve r status model).2.2).Solution = [])
    ∧ (∀ (r : Resolver) (model : List Bool),
      (decodeLoop (addRequires r.requires r.idMap).2 r.prodMap model
          (List.range' 1 (model.length - 1)) []).1 = none →
      (Resolve r .Satisfiable model).1 = true
      ∧ ((Resolve r .Satisfiable model).2.2).Solution
          = scanCollect (addRequires r.requires r.idMap).2 r.prodMap model) :=
  ⟨Resolve_unsat_clears, Resolve_sat_ok⟩

/-- The resolver of claim C7: index [Z-1 with no requirements],
requirement Z-1. -/
def C7resolver : Resolver :=
  (Initialize [⟨"Z", "1"⟩] [⟨⟨"Z", "1"⟩, []⟩] .ResolveSortNone).1

/-- Counterexample to C7 as stated: a successful resolve stores [Z-1],
but an intervening unsuccessful resolve resets the solution to the empty
list instead of keeping the last successful model. -/
theorem C7_counterexample :
    ((Resolve C7resolver .Satisfiable [false, true]).2.2).Solution = [⟨"Z", "1"⟩]
    ∧ ((Resolve ((Resolve C7resolver .Satisfiable [false, true]).2.2)
        .Unsatisfiable []).2.2).Solution = []
    ∧ ([] : List Package) ≠ [⟨"Z", "1"⟩] := by decide

/-- Witness for the amended C7 at the Z-1 resolver. -/
theorem C7_solution_decoded_but_cleared_on_failure_witness :
    ((Resolve C7resolver .Unsatisfiable []).2.2).Solution = []
    ∧ (Resolve C7resolver .Satisfiable [false, true]).1 = true
    ∧ ((Resolve C7resolver .Satisfiable [false, true]).2.2).Solution
        = scanCollect (addRequires C7resolver.requires C7resolver.idMap).2
            C7resolver.prodMap [false, true] :=
  ⟨C7_solution_decoded_but_cleared_on_failure.1 C7resolver .Unsatisfiable [] (by decide),
   (C7_solution_decoded_but_cleared_on_failure.2 C7resolver [false, true] (by decide)).1,
   (C7_solution_decoded_but_cleared_on_failure.2 C7resolver [false, true] (by decide)).2⟩

-- Facts feeding claim C3: identifier stability and Product Map
-- registration across the Initialize walk.

/-- The id a name resolves to in a map (0 when absent, matching the
invalid id of the source). -/
def idOf (m : stringIdMap) (s : String) : Literal := ((m.s_map).lookup s).getD 0

/-- A name has been interned. -/
def Present (m : stringIdMap) (s : String) : Prop := ((m.s_map).lookup s).isSome

/-- Map extension: every existing binding is preserved. -/
def mext (m m2 : stringIdMap) : Prop :=
  ∀ (s : String) (id : Literal), (m.s_map).lookup s = some id → (m2.s_map).lookup s = some id

/-- A package name is registered in the Product Map. -/
def Registered (pm : ProductMap) (s : String) : Prop := ((pm.pkgs).lookup s).isSome

/-- All interned ids are positive and the counter is nonnegative; holds
for the fresh map and is preserved by interning. -/
def posIds (m : stringIdMap) : Prop := 0 ≤ m.i ∧ ∀ pr ∈ m.s_map, 0 < pr.2

theorem mext_refl (m : stringIdMap) : mext m m := fun _ _ h => h

theorem mext_trans {m1 m2 m3 : stringIdMap} (h1 : mext m1 m2) (h2 : mext m2 m3) :
    mext m1 m3 := fun s id h => h2 s id (h1 s id h)

theorem StringToId_mext (m : stringIdMap) (s : String) : mext m (m.StringToId s).2 :=
  fun s2 id h => StringToId_lookup_mono m s s2 id h

theorem StringToId_posIds (m : stringIdMap) (s : String) (h : posIds m) :
    posIds (m.StringToId s).2 := by
  unfold stringIdMap.StringToId
  by_cases hs : s = ""
  · simpa [hs]
  · rw [if_neg hs]
    cases hl : (m.s_map).lookup s with
    | some id => simpa
    | none =>
      have hi : (0 : Int) ≤ m.i := h.1
      refine ⟨show (0 : Int) ≤ m.i + 1 from by omega, ?_⟩
      show ∀ pr ∈ m.s_map ++ [(s, m.i + 1)], 0 < pr.2
      intro pr hpr
      rcases List.mem_append.mp hpr with hm | hm
      · exact h.2 pr hm
      · simp only [List.mem_singleton] at hm
        subst hm
        show (0 : Int) < m.i + 1
        have hi2 : (0 : Int) ≤ m.i := h.1
        omega

theorem StringToId_result_pos (m : stringIdMap) (s : String) (h : posIds m) (hs : s ≠ "") :
    0 < (m.StringToId s).1 := by
  unfold stringIdMap.StringToId
  rw [if_neg hs]
  cases hl : (m.s_map).lookup s with
  | some id =>
    have hv : id ∈ m.s_map.map Prod.snd := mem_values_of_lookup_eq_some hl
    obtain ⟨pr, hpr, hpr2⟩ := List.mem_map.mp hv
    have hp2 : (0 : Int) < pr.2 := h.2 pr hpr
    simp only
    exact hpr2 ▸ hp2
  | none =>
    have hi : (0 : Int) ≤ m.i := h.1
    show (0 : Int) < m.i + 1
    omega

theorem idOf_of_lookup {m : stringIdMap} {s : String} {id : Literal}
    (h : (m.s_map).lookup s = some id) : idOf m s = id := by
  unfold idOf
  rw [h]
  rfl

theorem Present_mext {m m2 : stringIdMap} {s : String}
    (hp : Present m s) (he : mext m m2) : Present m2 s := by
  unfold Present at hp ⊢
  cases hl : (m.s_map).lookup s with
  | none => rw [hl] at hp; simp at hp
  | some id => rw [he s id hl]; rfl

theorem idOf_mext {m m2 : stringIdMap} {s : String}
    (hp : Present m s) (he : mext m m2) : idOf m2 s = idOf m s := by
  unfold Present at hp
  cases hl : (m.s_map).lookup s with
  | none => rw [hl] at hp; simp at hp
  | some id => rw [idOf_of_lookup hl, idOf_of_lookup (he s id hl)]

theorem packageName_ne_empty (p : Package) : p.packageName ≠ "" := by
  intro h
  have hlen := congrArg String.length h
  rw [Package.packageName, String.length_append, String.length_append] at hlen
  have h1 : ("-" : String).length = 1 := rfl
  have h0 : ("" : String).length = 0 := rfl
  rw [h1, h0] at hlen
  omega

theorem upsert_lookup_self {α β : Type _} [BEq α] [LawfulBEq α]
    (l : List (α × β)) (k : α) (v : β) : ((upsert l k v).lookup k) = some v := by
  induction l with
  | nil => simp [upsert, List.lookup]
  | cons p t ih =>
    unfold upsert
    by_cases hk : p.1 = k
    · rw [if_pos (beq_iff_eq.mpr hk)]
      simp [List.lookup]
    · rw [if_neg (by simpa using hk)]
      have hkb : (k == p.1) = false := beq_eq_false_iff_ne.mpr (fun he => hk he.symm)
      simp only [List.lookup, hkb]
      exact ih

theorem upsert_lookup_isSome_mono {α β : Type _} [BEq α] [LawfulBEq α]
    (l : List (α × β)) (k s : α) (v : β) (h : (l.lookup s).isSome) :
    ((upsert l k v).lookup s).isSome := by
  induction l with
  | nil => simp [List.lookup] at h
  | cons p t ih =>
    unfold upsert
    by_cases hpk : p.1 = k
    · subst hpk
      by_cases hsp : s = p.1
      · subst hsp
        rw [if_pos (beq_iff_eq.mpr rfl)]
        simp [List.lookup]
      · have hsb : (s == p.1) = false := beq_eq_false_iff_ne.mpr hsp
        rw [if_pos (beq_iff_eq.mpr rfl)]
        simp only [List.lookup, hsb] at h ⊢
        exact h
    · rw [if_neg (by simpa using hpk)]
      by_cases hsp : s = p.1
      · subst hsp
        simp [List.lookup]
      · have hsb : (s == p.1) = false := beq_eq_false_iff_ne.mpr hsp
        simp only [List.lookup, hsb] at h ⊢
        exact ih h

theorem Add_registered_self (pm : ProductMap) (p : Package) :
    Registered (pm.Add p) p.packageName := by
  unfold Registered ProductMap.Add
  simp only
  rw [upsert_lookup_self]
  rfl

theorem Add_registered_mono (pm : ProductMap) (p : Package) (s : String)
    (h : Registered pm s) : Registered (pm.Add p) s := by
  unfold Registered at h ⊢
  unfold ProductMap.Add
  simp only
  exact upsert_lookup_isSome_mono _ _ _ _ h

instance (pm : ProductMap) (s : String) : Decidable (Registered pm s) := by
  unfold Registered
  infer_instance

instance (m : stringIdMap) (s : String) : Decidable (Present m s) := by
  unfold Present
  infer_instance

theorem internGroup_spec : ∀ (g : List Package) (m : stringIdMap) (pm : ProductMap),
    mext m (internGroup g m pm).2.1
    ∧ (posIds m → posIds (internGroup g m pm).2.1)
    ∧ (internGroup g m pm).1
        = g.map (fun p => idOf (internGroup g m pm).2.1 p.packageName)
    ∧ (∀ p ∈ g, Present (internGroup g m pm).2.1 p.packageName)
    ∧ (posIds m → ∀ p ∈ g, 0 < idOf (internGroup g m pm).2.1 p.packageName)
    ∧ (∀ s, Registered pm s → Registered (internGroup g m pm).2.2 s)
    ∧ (∀ p ∈ g, Registered (internGroup g m pm).2.2 p.packageName) := by
  intro g
  induction g with
  | nil =>
    intro m pm
    exact ⟨mext_refl m, fun h => h, rfl, by simp, fun _ => by simp, fun s h => h, by simp⟩
  | cons p ps ih =>
    intro m pm
    obtain ⟨ihm, ihpos, ihlits, ihpres, ihposid, ihreg, ihmemreg⟩ :=
      ih (m.StringToId p.packageName).2 (pm.Add p)
    have hunf : internGroup (p :: ps) m pm
        = ((m.StringToId p.packageName).1
            :: (internGroup ps (m.StringToId p.packageName).2 (pm.Add p)).1,
           (internGroup ps (m.StringToId p.packageName).2 (pm.Add p)).2) := rfl
    rw [hunf]
    dsimp only
    have hm1 : mext m (m.StringToId p.packageName).2 := StringToId_mext m p.packageName
    have hlkp : (((m.StringToId p.packageName).2).s_map).lookup p.packageName
        = some (m.StringToId p.packageName).1 :=
      StringToId_lookup_self m p.packageName (packageName_ne_empty p)
    have hlkp2 := ihm _ _ hlkp
    refine ⟨mext_trans hm1 ihm, fun h => ihpos (StringToId_posIds m _ h), ?_, ?_, ?_, ?_, ?_⟩
    · simp only [List.map_cons]
      rw [← ihlits, idOf_of_lookup hlkp2]
    · intro q hq
      rcases List.mem_cons.mp hq with hq | hq
      · subst hq
        unfold Present
        rw [hlkp2]
        rfl
      · exact ihpres q hq
    · intro hposm q hq
      rcases List.mem_cons.mp hq with hq | hq
      · subst hq
        rw [idOf_of_lookup hlkp2]
        exact StringToId_result_pos m _ hposm (packageName_ne_empty q)
      · exact ihposid (StringToId_posIds m _ hposm) q hq
    · exact fun s h => ihreg s (Add_registered_mono pm p s h)
    · intro q hq
      rcases List.mem_cons.mp hq with hq | hq
      · subst hq
        exact ihreg q.packageName (Add_registered_self pm q)
      · exact ihmemreg q hq

theorem addDepGroups_spec : ∀ (gs : List (List Package)) (tid : Literal)
    (m : stringIdMap) (pm : ProductMap),
    mext m (addDepGroups gs tid m pm).1
    ∧ (posIds m → posIds (addDepGroups gs tid m pm).1)
    ∧ (addDepGroups gs tid m pm).2.2
        = gs.map (fun g => (-tid)
            :: g.map (fun p => idOf (addDepGroups gs tid m pm).1 p.packageName))
    ∧ (∀ g ∈ gs, ∀ p ∈ g, Present (addDepGroups gs tid m pm).1 p.packageName)
    ∧ (posIds m → ∀ g ∈ gs, ∀ p ∈ g, 0 < idOf (addDepGroups gs tid m pm).1 p.packageName)
    ∧ (∀ s, Registered pm s → Registered (addDepGroups gs tid m pm).2.1 s)
    ∧ (∀ g ∈ gs, ∀ p ∈ g, Registered (addDepGroups gs tid m pm).2.1 p.packageName) := by
  intro gs
  induction gs with
  | nil =>
    intro tid m pm
    exact ⟨mext_refl m, fun h => h, rfl, by simp, fun _ => by simp, fun s h => h, by simp⟩
  | cons g gs ih =>
    intro tid m pm
    obtain ⟨igm, igpos, iglits, igpres, igposid, igreg, igmemreg⟩ := internGroup_spec g m pm
    obtain ⟨ihm, ihpos, ihcls, ihpres, ihposid, ihreg, ihmemreg⟩ :=
      ih tid (internGroup g m pm).2.1 (internGroup g m pm).2.2
    have hunf : addDepGroups (g :: gs) tid m pm
        = ((addDepGroups gs tid (internGroup g m pm).2.1 (internGroup g m pm).2.2).1,
           (addDepGroups gs tid (internGroup g m pm).2.1 (internGroup g m pm).2.2).2.1,
           ((-tid) :: (internGroup g m pm).1)
             :: (addDepGroups gs tid (internGroup g m pm).2.1 (internGroup g m pm).2.2).2.2) := rfl
    rw [hunf]
    dsimp only
    refine ⟨mext_trans igm ihm, fun h => ihpos (igpos h), ?_, ?_, ?_, ?_, ?_⟩
    · simp only [List.map_cons]
      rw [ihcls]
      congr 1
      rw [iglits]
      congr 1
      apply List.map_congr_left
      intro q hq
      exact (idOf_mext (igpres q hq) ihm).symm
    · intro g2 hg2 q hq
      rcases List.mem_cons.mp hg2 with hg2 | hg2
      · subst hg2
        exact Present_mext (igpres q hq) ihm
      · exact ihpres g2 hg2 q hq
    · intro hposm g2 hg2 q hq
      rcases List.mem_cons.mp hg2 with hg2 | hg2
      · subst hg2
        rw [idOf_mext (igpres q hq) ihm]
        exact igposid hposm q hq
      · exact ihposid (igpos hposm) g2 hg2 q hq
    · exact fun s h => ihreg s (igreg s h)
    · intro g2 hg2 q hq
      rcases List.mem_cons.mp hg2 with hg2 | hg2
      · subst hg2
        exact ihreg q.packageName (igmemreg q hq)
      · exact ihmemreg g2 hg2 q hq

theorem addDepClauses_spec : ∀ (index : List Dependency)
    (m : stringIdMap) (pm : ProductMap),
    mext m (addDepClauses index m pm).1
    ∧ (posIds m → posIds (addDepClauses index m pm).1)
    ∧ (addDepClauses index m pm).2.2
        = index.flatMap (fun dep => dep.requires.map (fun g =>
            (-(idOf (addDepClauses index m pm).1 dep.target.packageName))
              :: g.map (fun p => idOf (addDepClauses index m pm).1 p.packageName)))
    ∧ (posIds m → ∀ dep ∈ index,
        0 < idOf (addDepClauses index m pm).1 dep.target.packageName
        ∧ ∀ g ∈ dep.requires, ∀ p ∈ g,
            0 < idOf (addDepClauses index m pm).1 p.packageName)
    ∧ (∀ dep ∈ index, Registered (addDepClauses index m pm).2.1 dep.target.packageName
        ∧ ∀ g ∈ dep.requires, ∀ p ∈ g,
            Registered (addDepClauses index m pm).2.1 p.packageName)
    ∧ (∀ s, Registered pm s → Registered (addDepClauses index m pm).2.1 s) := by
  intro index
  induction index with
  | nil =>
    intro m pm
    exact ⟨mext_refl m, fun h => h, rfl, fun _ => by simp, by simp, fun s h => h⟩
  | cons dep rest ih =>
    intro m pm
    obtain ⟨igm, igpos, igcls, igpres, igposid, igreg, igmemreg⟩ :=
      addDepGroups_spec dep.requires (m.StringToId dep.target.packageName).1
        (m.StringToId dep.target.packageName).2 (pm.Add dep.target)
    obtain ⟨ihm, ihpos, ihcls, ihposid, ihmemreg, ihreg⟩ :=
      ih (addDepGroups dep.requires (m.StringToId dep.target.packageName).1
            (m.StringToId dep.target.packageName).2 (pm.Add dep.target)).1
         (addDepGroups dep.requires (m.StringToId dep.target.packageName).1
            (m.StringToId dep.target.packageName).2 (pm.Add dep.target)).2.1
    have hunf : addDepClauses (dep :: rest) m pm
        = ((addDepClauses rest
              (addDepGroups dep.requires (m.StringToId dep.target.packageName).1
                (m.StringToId dep.target.packageName).2 (pm.Add dep.target)).1
              (addDepGroups dep.requires (m.StringToId dep.target.packageName).1
                (m.StringToId dep.target.packageName).2 (pm.Add dep.target)).2.1).1,
           (addDepClauses rest
              (addDepGroups dep.requires (m.StringToId dep.target.packageName).1
                (m.StringToId dep.target.packageName).2 (pm.Add dep.target)).1
              (addDepGroups dep.requires (m.StringToId dep.target.packageName).1
                (m.StringToId dep.target.packageName).2 (pm.Add dep.target)).2.1).2.1,
           (addDepGroups dep.requires (m.StringToId dep.target.packageName).1
              (m.StringToId dep.target.packageName).2 (pm.Add dep.target)).2.2
             ++ (addDepClauses rest
                  (addDepGroups dep.requires (m.StringToId dep.target.packageName).1
                    (m.StringToId dep.target.packageName).2 (pm.Add dep.target)).1
                  (addDepGroups dep.requires (m.StringToId dep.target.packageName).1
                    (m.StringToId dep.target.packageName).2 (pm.Add dep.target)).2.1).2.2) := rfl
    rw [hunf]
    dsimp only
    have hm1 : mext m (m.StringToId dep.target.packageName).2 :=
      StringToId_mext m dep.target.packageName
    have hlkp : (((m.StringToId dep.target.packageName).2).s_map).lookup
          dep.target.packageName = some (m.StringToId dep.target.packageName).1 :=
      StringToId_lookup_self m dep.target.packageName (packageName_ne_empty dep.target)
    have hlkp2 := ihm _ _ (igm _ _ hlkp)
    have htid := idOf_of_lookup hlkp2
    refine ⟨mext_trans hm1 (mext_trans igm ihm),
      fun h => ihpos (igpos (StringToId_posIds m _ h)), ?_, ?_, ?_, ?_⟩
    · rw [List.flatMap_cons, ← ihcls]
      congr 1
      rw [igcls, htid]
      apply List.map_congr_left
      intro g2 hg2
      congr 1
      apply List.map_congr_left
      intro q hq
      exact (idOf_mext (igpres g2 hg2 q hq) ihm).symm
    · intro hposm dep2 hdep2
      rcases List.mem_cons.mp hdep2 with hdep2 | hdep2
      · subst hdep2
        constructor
        · rw [htid]
          exact StringToId_result_pos m _ hposm (packageName_ne_empty dep2.target)
        · intro g2 hg2 q hq
          rw [idOf_mext (igpres g2 hg2 q hq) ihm]
          exact igposid (StringToId_posIds m _ hposm) g2 hg2 q hq
      · exact ihposid (igpos (StringToId_posIds m _ hposm)) dep2 hdep2
    · intro dep2 hdep2
      rcases List.mem_cons.mp hdep2 with hdep2 | hdep2
      · subst hdep2
        constructor
        · exact ihreg _ (igreg _ (Add_registered_self pm dep2.target))
        · intro g2 hg2 q hq
          exact ihreg _ (igmemreg g2 hg2 q hq)
      · exact ihmemreg dep2 hdep2
    · exact fun s h => ihreg s (igreg s (Add_registered_mono pm dep.target s h))

/-- C3: for every dependency (T, groups) of the index, initialization
emits, in index order, exactly one clause per requirement group G =
[p1, ..., pk], namely the clause whose first literal is the negation of
id(T) and whose remaining literals are the positive ids id(p1), ...,
id(pk); and it registers T and every pi in the Product Map.  Stated over
the dependency walk of Initialize (resolver.go lines 134-155) from any
starting maps whose interned ids are positive, which holds for the fresh
map and after the optional pre-interning pass. -/
theorem C3_dependency_clause_emission (index : List Dependency) (m0 : stringIdMap)
    (pm0 : ProductMap) (hpos : posIds m0) :
    ((addDepClauses index m0 pm0).2.2
      = index.flatMap (fun dep => dep.requires.map (fun g =>
          (-(idOf (addDepClauses index m0 pm0).1 dep.target.packageName))
            :: g.map (fun p => idOf (addDepClauses index m0 pm0).1 p.packageName))))
    ∧ (∀ dep ∈ index, 0 < idOf (addDepClauses index m0 pm0).1 dep.target.packageName
        ∧ ∀ g ∈ dep.requires, ∀ p ∈ g,
            0 < idOf (addDepClauses index m0 pm0).1 p.packageName)
    ∧ (∀ dep ∈ index, Registered (addDepClauses index m0 pm0).2.1 dep.target.packageName
        ∧ ∀ g ∈ dep.requires, ∀ p ∈ g,
            Registered (addDepClauses index m0 pm0).2.1 p.packageName) := by
  obtain ⟨_, _, hcls, hpos2, hreg, _⟩ := addDepClauses_spec index m0 pm0
  exact ⟨hcls, hpos2 hpos, hreg⟩

/-- The index of the C3 witness: A-1 requires one of B-1, B-2. -/
def C3index : List Dependency := [⟨⟨"A", "1"⟩, [[⟨"B", "1"⟩, ⟨"B", "2"⟩]]⟩]

/-- Witness for C3: on the one-dependency index, the walk emits exactly
the clause [-1, 2, 3] and registers all three packages. -/
theorem C3_dependency_clause_emission_witness :
    ((addDepClauses C3index newStringIdMap NewProductMap).2.2
      = C3index.flatMap (fun dep => dep.requires.map (fun g =>
          (-(idOf (addDepClauses C3index newStringIdMap NewProductMap).1
              dep.target.packageName))
            :: g.map (fun p => idOf (addDepClauses C3index newStringIdMap NewProductMap).1
                p.packageName))))
    ∧ (addDepClauses C3index newStringIdMap NewProductMap).2.2 = [[-1, 2, 3]]
    ∧ Registered (addDepClauses C3index newStringIdMap NewProductMap).2.1 "B-2" :=
  ⟨(C3_dependency_clause_emission C3index newStringIdMap NewProductMap
      ⟨by decide, by decide⟩).1,
   by decide, by decide⟩

-- Order facts about the Go string comparison, needed for sortedness of
-- the pre-interning pass.

theorem lexLt_asymm : ∀ a b : List Char, lexLt a b = true → lexLt b a = false := by
  intro a
  induction a with
  | nil =>
    intro b h
    cases b with
    | nil => simp [lexLt] at h
    | cons c cs => simp [lexLt]
  | cons c cs ih =>
    intro b h
    cases b with
    | nil => simp [lexLt] at h
    | cons d ds =>
      unfold lexLt at h ⊢
      by_cases h1 : c.toNat < d.toNat
      · rw [if_neg (by omega), if_pos h1]
      · rw [if_neg h1] at h
        by_cases h2 : d.toNat < c.toNat
        · rw [if_pos h2] at h
          exact absurd h (by simp)
        · rw [if_neg h2] at h
          rw [if_neg (by omega), if_neg (by omega)]
          exact ih ds h

theorem lexLt_trans : ∀ a b c : List Char,
    lexLt a b = true → lexLt b c = true → lexLt a c = true := by
  intro a
  induction a with
  | nil =>
    intro b c hab hbc
    cases c with
    | nil =>
      cases b with
      | nil => simp [lexLt] at hab
      | cons d ds => simp [lexLt] at hbc
    | cons e es => simp [lexLt]
  | cons d ds ih =>
    intro b c hab hbc
    cases b with
    | nil => simp [lexLt] at hab
    | cons e es =>
      cases c with
      | nil => simp [lexLt] at hbc
      | cons f fs =>
        unfold lexLt at hab hbc ⊢
        by_cases h1 : d.toNat < e.toNat
        · by_cases h2 : e.toNat < f.toNat
          · rw [if_pos (by omega)]
          · rw [if_neg h2] at hbc
            by_cases h3 : f.toNat < e.toNat
            · rw [if_pos h3] at hbc
              exact absurd hbc (by simp)
            · rw [if_pos (by omega)]
        · rw [if_neg h1] at hab
          by_cases h4 : e.toNat < d.toNat
          · rw [if_pos h4] at hab
            exact absurd hab (by simp)
          · rw [if_neg h4] at hab
            by_cases h2 : e.toNat < f.toNat
            · rw [if_pos (by omega)]
            · rw [if_neg h2] at hbc
              by_cases h3 : f.toNat < e.toNat
              · rw [if_pos h3] at hbc
                exact absurd hbc (by simp)
              · rw [if_neg h3] at hbc
                rw [if_neg (by omega), if_neg (by omega)]
                exact ih es fs hab hbc

theorem lexLt_connex : ∀ a b : List Char,
    lexLt a b = false → lexLt b a = false → a = b := by
  intro a
  induction a with
  | nil =>
    intro b h1 _h2
    cases b with
    | nil => rfl
    | cons c cs => simp [lexLt] at h1
  | cons c cs ih =>
    intro b h1 h2
    cases b with
    | nil => simp [lexLt] at h2
    | cons d ds =>
      unfold lexLt at h1 h2
      by_cases hc : c.toNat < d.toNat
      · rw [if_pos hc] at h1
        exact absurd h1 (by simp)
      · rw [if_neg hc] at h1
        by_cases hd : d.toNat < c.toNat
        · rw [if_pos hd] at h2
          exact absurd h2 (by simp)
        · rw [if_neg hd] at h1
          rw [if_neg (by omega), if_neg (by omega)] at h2
          have htn : c.toNat = d.toNat := by omega
          have hcd : c = d := Char.ext (UInt32.ext htn)
          rw [hcd, ih ds h1 h2]

theorem strLe_total (a b : String) : strLe a b = true ∨ strLe b a = true := by
  cases h : lexLt b.toList a.toList with
  | false =>
    left
    unfold strLe strLt
    rw [h]
    rfl
  | true =>
    right
    unfold strLe strLt
    rw [lexLt_asymm _ _ h]
    rfl

theorem strLe_trans {a b c : String}
    (h1 : strLe a b = true) (h2 : strLe b c = true) : strLe a c = true := by
  unfold strLe strLt at h1 h2 ⊢
  have hba : lexLt b.toList a.toList = false := by
    cases hx : lexLt b.toList a.toList
    · rfl
    · rw [hx] at h1; exact absurd h1 (by simp)
  have hcb : lexLt c.toList b.toList = false := by
    cases hx : lexLt c.toList b.toList
    · rfl
    · rw [hx] at h2; exact absurd h2 (by simp)
  have hca : lexLt c.toList a.toList = false := by
    cases hx : lexLt c.toList a.toList
    · rfl
    · exfalso
      cases hab : lexLt a.toList b.toList
      · have heq := lexLt_connex _ _ hab hba
        rw [heq] at hx
        rw [hx] at hcb
        exact absurd hcb (by simp)
      · have htr := lexLt_trans _ _ _ hx hab
        rw [htr] at hcb
        exact absurd hcb (by simp)
  rw [hca]
  rfl

instance : IsTotal Package pkgLe :=
  ⟨fun a b => by
    unfold pkgLe
    exact strLe_total a.packageName b.packageName⟩

instance : IsTrans Package pkgLe :=
  ⟨fun a b c h1 h2 => by
    unfold pkgLe at h1 h2 ⊢
    exact strLe_trans h1 h2⟩

instance : IsTotal Package pkgGe :=
  ⟨fun a b => by
    unfold pkgGe
    exact strLe_total b.packageName a.packageName⟩

instance : IsTrans Package pkgGe :=
  ⟨fun a b c h1 h2 => by
    unfold pkgGe at h1 h2 ⊢
    exact strLe_trans h2 h1⟩

-- Key-set facts about upsert and the flattenDependencies folds.

theorem upsert_keys_mem_iff {α β : Type _} [BEq α] [LawfulBEq α]
    (l : List (α × β)) (k x : α) (v : β) :
    x ∈ (upsert l k v).map Prod.fst ↔ x = k ∨ x ∈ l.map Prod.fst := by
  induction l with
  | nil => simp [upsert]
  | cons p t ih =>
    unfold upsert
    by_cases hk : p.1 = k
    · rw [if_pos (beq_iff_eq.mpr hk)]
      subst hk
      simp
    · rw [if_neg (by simpa using hk)]
      simp only [List.map_cons, List.mem_cons, ih]
      tauto

theorem upsert_keys_nodup {α β : Type _} [BEq α] [LawfulBEq α]
    (l : List (α × β)) (k : α) (v : β) (h : (l.map Prod.fst).Nodup) :
    ((upsert l k v).map Prod.fst).Nodup := by
  induction l with
  | nil => simp [upsert]
  | cons p t ih =>
    simp only [List.map_cons, List.nodup_cons] at h
    unfold upsert
    by_cases hk : p.1 = k
    · rw [if_pos (beq_iff_eq.mpr hk)]
      subst hk
      simp only [List.map_cons, List.nodup_cons]
      exact h
    · rw [if_neg (by simpa using hk)]
      simp only [List.map_cons, List.nodup_cons]
      refine ⟨?_, ih h.2⟩
      rw [upsert_keys_mem_iff]
      push_neg
      exact ⟨fun he => hk he, h.1⟩

theorem upsert_pairs {α β : Type _} [BEq α] [LawfulBEq α]
    (l : List (α × β)) (k : α) (v : β) (P : α × β → Prop)
    (hl : ∀ pr ∈ l, P pr) (hkv : P (k, v)) : ∀ pr ∈ upsert l k v, P pr := by
  induction l with
  | nil => simpa [upsert]
  | cons p t ih =>
    unfold upsert
    by_cases hk : p.1 = k
    · rw [if_pos (beq_iff_eq.mpr hk)]
      intro pr hpr
      rcases List.mem_cons.mp hpr with hpr | hpr
      · exact hpr ▸ hkv
      · exact hl pr (List.mem_cons_of_mem p hpr)
    · rw [if_neg (by simpa using hk)]
      intro pr hpr
      rcases List.mem_cons.mp hpr with hpr | hpr
      · exact hpr ▸ hl p (List.mem_cons_self p t)
      · exact ih (fun q hq => hl q (List.mem_cons_of_mem p hq)) pr hpr

theorem foldVers_spec (vers : List Package) : ∀ pm : List (String × Package),
    (((pm.map Prod.fst).Nodup) →
      (((vers.foldl (fun pm2 ver => upsert pm2 ver.packageName ver) pm).map Prod.fst).Nodup))
    ∧ (∀ x, x ∈ (vers.foldl (fun pm2 ver => upsert pm2 ver.packageName ver) pm).map Prod.fst
        ↔ x ∈ pm.map Prod.fst ∨ ∃ v ∈ vers, x = v.packageName)
    ∧ ((∀ pr ∈ pm, pr.1 = pr.2.packageName) →
        ∀ pr ∈ vers.foldl (fun pm2 ver => upsert pm2 ver.packageName ver) pm,
          pr.1 = pr.2.packageName) := by
  induction vers with
  | nil =>
    intro pm
    exact ⟨fun h => h, fun x => by simp, fun h => h⟩
  | cons v vs ih =>
    intro pm
    obtain ⟨ihn, ihm, ihp⟩ := ih (upsert pm v.packageName v)
    refine ⟨?_, ?_, ?_⟩
    · intro h
      exact ihn (upsert_keys_nodup pm v.packageName v h)
    · intro x
      rw [List.foldl_cons, ihm x, upsert_keys_mem_iff]
      constructor
      · rintro ((h | h) | h)
        · exact Or.inr ⟨v, List.mem_cons_self v vs, h⟩
        · exact Or.inl h
        · obtain ⟨w, hw, hx⟩ := h
          exact Or.inr ⟨w, List.mem_cons_of_mem v hw, hx⟩
      · rintro (h | ⟨w, hw, hx⟩)
        · exact Or.inl (Or.inr h)
        · rcases List.mem_cons.mp hw with hw | hw
          · exact Or.inl (Or.inl (hw ▸ hx))
          · exact Or.inr ⟨w, hw, hx⟩
    · intro h
      exact ihp (upsert_pairs pm v.packageName v _ h rfl)

theorem foldGroups_spec (gs : List (List Package)) : ∀ pm : List (String × Package),
    (((pm.map Prod.fst).Nodup) →
      (((gs.foldl (fun pm2 verList => verList.foldl
          (fun pm3 ver => upsert pm3 ver.packageName ver) pm2) pm).map Prod.fst).Nodup))
    ∧ (∀ x, x ∈ (gs.foldl (fun pm2 verList => verList.foldl
          (fun pm3 ver => upsert pm3 ver.packageName ver) pm2) pm).map Prod.fst
        ↔ x ∈ pm.map Prod.fst ∨ ∃ g ∈ gs, ∃ v ∈ g, x = v.packageName)
    ∧ ((∀ pr ∈ pm, pr.1 = pr.2.packageName) →
        ∀ pr ∈ gs.foldl (fun pm2 verList => verList.foldl
          (fun pm3 ver => upsert pm3 ver.packageName ver) pm2) pm,
          pr.1 = pr.2.packageName) := by
  induction gs with
  | nil =>
    intro pm
    exact ⟨fun h => h, fun x => by simp, fun h => h⟩
  | cons g gs ih =>
    intro pm
    obtain ⟨vn, vm, vp⟩ := foldVers_spec g pm
    obtain ⟨ihn, ihm, ihp⟩ := ih (g.foldl (fun pm3 ver => upsert pm3 ver.packageName ver) pm)
    refine ⟨fun h => ihn (vn h), ?_, fun h => ihp (vp h)⟩
    intro x
    rw [List.foldl_cons, ihm x, vm x]
    constructor
    · rintro ((h | h) | h)
      · exact Or.inl h
      · obtain ⟨w, hw, hx⟩ := h
        exact Or.inr ⟨g, List.mem_cons_self g gs, w, hw, hx⟩
      · obtain ⟨g2, hg2, w, hw, hx⟩ := h
        exact Or.inr ⟨g2, List.mem_cons_of_mem g hg2, w, hw, hx⟩
    · rintro (h | ⟨g2, hg2, w, hw, hx⟩)
      · exact Or.inl (Or.inl h)
      · rcases List.mem_cons.mp hg2 with hg2 | hg2
        · exact Or.inl (Or.inr ⟨w, hg2 ▸ hw, hx⟩)
        · exact Or.inr ⟨g2, hg2, w, hw, hx⟩

theorem foldDeps_spec (deps : List Dependency) : ∀ pm : List (String × Package),
    (((pm.map Prod.fst).Nodup) →
      (((deps.foldl (fun pm2 d => d.requires.foldl (fun pm3 verList => verList.foldl
          (fun pm4 ver => upsert pm4 ver.packageName ver) pm3)
          (upsert pm2 d.target.packageName d.target)) pm).map Prod.fst).Nodup))
    ∧ (∀ x, x ∈ (deps.foldl (fun pm2 d => d.requires.foldl (fun pm3 verList => verList.foldl
          (fun pm4 ver => upsert pm4 ver.packageName ver) pm3)
          (upsert pm2 d.target.packageName d.target)) pm).map Prod.fst
        ↔ x ∈ pm.map Prod.fst ∨ ∃ dep ∈ deps, x = dep.target.packageName
            ∨ ∃ g ∈ dep.requires, ∃ v ∈ g, x = v.packageName)
    ∧ ((∀ pr ∈ pm, pr.1 = pr.2.packageName) →
        ∀ pr ∈ deps.foldl (fun pm2 d => d.requires.foldl (fun pm3 verList => verList.foldl
          (fun pm4 ver => upsert pm4 ver.packageName ver) pm3)
          (upsert pm2 d.target.packageName d.target)) pm,
          pr.1 = pr.2.packageName) := by
  induction deps with
  | nil =>
    intro pm
    exact ⟨fun h => h, fun x => by simp, fun h => h⟩
  | cons d ds ih =>
    intro pm
    obtain ⟨gn, gm, gp⟩ := foldGroups_spec d.requires (upsert pm d.target.packageName d.target)
    obtain ⟨ihn, ihm, ihp⟩ := ih (d.requires.foldl (fun pm3 verList => verList.foldl
      (fun pm4 ver => upsert pm4 ver.packageName ver) pm3)
      (upsert pm d.target.packageName d.target))
    refine ⟨fun h => ihn (gn (upsert_keys_nodup pm d.target.packageName d.target h)), ?_,
      fun h => ihp (gp (upsert_pairs pm d.target.packageName d.target _ h rfl))⟩
    intro x
    rw [List.foldl_cons, ihm x, gm x, upsert_keys_mem_iff]
    constructor
    · rintro (((h | h) | h) | h)
      · exact Or.inr ⟨d, List.mem_cons_self d ds, Or.inl h⟩
      · exact Or.inl h
      · obtain ⟨g2, hg2, w, hw, hx⟩ := h
        exact Or.inr ⟨d, List.mem_cons_self d ds, Or.inr ⟨g2, hg2, w, hw, hx⟩⟩
      · obtain ⟨dep, hdep, hrest⟩ := h
        exact Or.inr ⟨dep, List.mem_cons_of_mem d hdep, hrest⟩
    · rintro (h | ⟨dep, hdep, hrest⟩)
      · exact Or.inl (Or.inl (Or.inr h))
      · rcases List.mem_cons.mp hdep with hdep | hdep
        · subst hdep
          rcases hrest with h | h
          · exact Or.inl (Or.inl (Or.inl h))
          · exact Or.inl (Or.inr h)
        · exact Or.inr ⟨dep, hdep, hrest⟩

theorem flattenDependencies_names (deps : List Dependency) :
    ((flattenDependencies deps).map (fun p => p.packageName)).Nodup
    ∧ (∀ x, x ∈ (flattenDependencies deps).map (fun p => p.packageName)
        ↔ ∃ dep ∈ deps, x = dep.target.packageName
            ∨ ∃ g ∈ dep.requires, ∃ v ∈ g, x = v.packageName) := by
  obtain ⟨hn, hm, hp⟩ := foldDeps_spec deps []
  have hinv := hp (by simp)
  have hkeys : (flattenDependencies deps).map (fun p => p.packageName)
      = (deps.foldl (fun pm2 d => d.requires.foldl (fun pm3 verList => verList.foldl
          (fun pm4 ver => upsert pm4 ver.packageName ver) pm3)
          (upsert pm2 d.target.packageName d.target)) []).map Prod.fst := by
    unfold flattenDependencies
    rw [List.map_map]
    apply List.map_congr_left
    intro pr hpr
    simp only [Function.comp]
    exact (hinv pr hpr).symm
  rw [hkeys]
  refine ⟨hn (by simp), fun x => ?_⟩
  rw [hm x]
  simp

theorem intRange_cons (a : Int) (k : Nat) : intRange a (k + 1) = a :: intRange (a + 1) k := by
  unfold intRange
  rw [List.range_succ_eq_map]
  simp only [List.map_cons, List.map_map]
  congr 1
  · simp
  · apply List.map_congr_left
    intro j hj
    simp only [Function.comp]
    push_cast
    ring

/-- The interning fold of the pre-interning pass (resolver.go lines
122-124). -/
def internList (l : List Package) (m : stringIdMap) : stringIdMap :=
  l.foldl (fun m2 pack => (m2.StringToId pack.packageName).2) m

theorem internList_fresh : ∀ (l : List Package) (m : stringIdMap),
    (∀ p ∈ l, ((m.s_map).lookup p.packageName) = none) →
    ((l.map (fun p => p.packageName)).Nodup) →
    (internList l m).s_map
      = m.s_map ++ ((l.map (fun p => p.packageName)).zip (intRange (m.i + 1) l.length))
    ∧ (internList l m).i = m.i + l.length := by
  intro l
  induction l with
  | nil =>
    intro m _ _
    exact ⟨by simp [internList, intRange], by simp [internList]⟩
  | cons p ps ih =>
    intro m hfresh hnodup
    have hl := hfresh p (List.mem_cons_self p ps)
    have hs := packageName_ne_empty p
    have hm1s : ((m.StringToId p.packageName).2).s_map
        = m.s_map ++ [(p.packageName, m.i + 1)] := by
      unfold stringIdMap.StringToId
      rw [if_neg hs, hl]
    have hm1i : ((m.StringToId p.packageName).2).i = m.i + 1 := by
      unfold stringIdMap.StringToId
      rw [if_neg hs, hl]
    have hfresh2 : ∀ q ∈ ps,
        (((m.StringToId p.packageName).2).s_map).lookup q.packageName = none := by
      intro q hq
      rw [hm1s, List.lookup_append]
      rw [hfresh q (List.mem_cons_of_mem _ hq)]
      have hqp : q.packageName ≠ p.packageName := by
        simp only [List.map_cons, List.nodup_cons] at hnodup
        intro he
        exact hnodup.1 (he ▸ List.mem_map_of_mem _ hq)
      simp [List.lookup, beq_eq_false_iff_ne.mpr hqp]
    have hnodup2 : (ps.map (fun p => p.packageName)).Nodup := by
      simp only [List.map_cons, List.nodup_cons] at hnodup
      exact hnodup.2
    obtain ⟨ihs, ihi⟩ := ih ((m.StringToId p.packageName).2) hfresh2 hnodup2
    have hstep : internList (p :: ps) m = internList ps ((m.StringToId p.packageName).2) := rfl
    rw [hstep]
    constructor
    · rw [ihs, hm1s, hm1i]
      simp only [List.map_cons, List.length_cons]
      rw [intRange_cons, List.append_assoc]
      rfl
    · rw [ihi, hm1i]
      simp only [List.length_cons]
      push_cast
      ring

/-- Interning the spec's claimed order for PreferHigh: descending
package-name order.  Follows the claim's words, for comparison with the
source's preloadIdMap. -/
def preloadSpecDescendingHigh (index : List Dependency) : stringIdMap :=
  internList (sortPackagesDesc (flattenDependencies index)) newStringIdMap

/-- The two-version index of the C6 counterexample. -/
def C6index : List Dependency := [⟨⟨"A", "1"⟩, []⟩, ⟨⟨"A", "2"⟩, []⟩]

/-- Counterexample to C6 as stated: under PreferHigh the pre-interning
pass interns A-1 before A-2 — ASCENDING name order, so A-1 gets id 1 —
whereas the claimed descending order would intern A-2 first. -/
theorem C6_counterexample :
    (preloadIdMap .ResolveSortHigh C6index newStringIdMap).s_map = [("A-1", 1), ("A-2", 2)]
    ∧ strLt "A-1" "A-2" = true
    ∧ (preloadSpecDescendingHigh C6index).s_map = [("A-2", 1), ("A-1", 2)]
    ∧ preloadIdMap .ResolveSortHigh C6index newStringIdMap ≠ preloadSpecDescendingHigh C6index := by
  decide

/-- C6 amended: the pre-interning pass flattens the index into the
deduplicated set of all referenced packages (targets and all
alternatives of all requirement groups), and interns their names — in
ASCENDING package-name order for PreferHigh (plain sort), and in the
inversion of the ascending sort, i.e. descending order, for PreferLow
(sort.Reverse); ids 1..k are assigned in that order. -/
theorem C6_preintern_flatten_and_order (index : List Dependency) :
    ((flattenDependencies index).map (fun p => p.packageName)).Nodup
    ∧ (∀ x, x ∈ (flattenDependencies index).map (fun p => p.packageName)
        ↔ ∃ dep ∈ index, x = dep.target.packageName
            ∨ ∃ g ∈ dep.requires, ∃ v ∈ g, x = v.packageName)
    ∧ List.Sorted pkgLe (sortPackagesAsc (flattenDependencies index))
    ∧ List.Sorted pkgGe (sortPackagesDesc (flattenDependencies index))
    ∧ (preloadIdMap .ResolveSortHigh index newStringIdMap).s_map
        = ((sortPackagesAsc (flattenDependencies index)).map (fun p => p.packageName)).zip
            (intRange 1 (flattenDependencies index).length)
    ∧ (preloadIdMap .ResolveSortLow index newStringIdMap).s_map
        = ((sortPackagesDesc (flattenDependencies index)).map (fun p => p.packageName)).zip
            (intRange 1 (flattenDependencies index).length) := by
  obtain ⟨hnodup, hmem⟩ := flattenDependencies_names index
  have hpermA : (sortPackagesAsc (flattenDependencies index)).Perm (flattenDependencies index) :=
    List.perm_insertionSort pkgLe (flattenDependencies index)
  have hpermD : (sortPackagesDesc (flattenDependencies index)).Perm (flattenDependencies index) :=
    List.perm_insertionSort pkgGe (flattenDependencies index)
  have hnodupA : ((sortPackagesAsc (flattenDependencies index)).map
      (fun p => p.packageName)).Nodup :=
    (List.Perm.nodup_iff (List.Perm.map _ hpermA)).mpr hnodup
  have hnodupD : ((sortPackagesDesc (flattenDependencies index)).map
      (fun p => p.packageName)).Nodup :=
    (List.Perm.nodup_iff (List.Perm.map _ hpermD)).mpr hnodup
  have hfreshA : ∀ p ∈ sortPackagesAsc (flattenDependencies index),
      ((newStringIdMap.s_map).lookup p.packageName) = none := fun _ _ => rfl
  have hfreshD : ∀ p ∈ sortPackagesDesc (flattenDependencies index),
      ((newStringIdMap.s_map).lookup p.packageName) = none := fun _ _ => rfl
  obtain ⟨hA, _⟩ := internList_fresh (sortPackagesAsc (flattenDependencies index))
    newStringIdMap hfreshA hnodupA
  obtain ⟨hD, _⟩ := internList_fresh (sortPackagesDesc (flattenDependencies index))
    newStringIdMap hfreshD hnodupD
  have hHigh : preloadIdMap .ResolveSortHigh index newStringIdMap
      = internList (sortPackagesAsc (flattenDependencies index)) newStringIdMap := rfl
  have hLow : preloadIdMap .ResolveSortLow index newStringIdMap
      = internList (sortPackagesDesc (flattenDependencies index)) newStringIdMap := rfl
  refine ⟨hnodup, hmem, List.sorted_insertionSort pkgLe _, List.sorted_insertionSort pkgGe _,
    ?_, ?_⟩
  · rw [hHigh, hA]
    have hlen : (sortPackagesAsc (flattenDependencies index)).length
        = (flattenDependencies index).length := hpermA.length_eq
    simp [newStringIdMap, hlen]
  · rw [hLow, hD]
    have hlen : (sortPackagesDesc (flattenDependencies index)).length
        = (flattenDependencies index).length := hpermD.length_eq
    simp [newStringIdMap, hlen]

-- Claim C10: bounds of the rels store in cnfToPackageRelations.

/-- A line the parser treats as a clause line. -/
def isClauseLine (line : String) : Bool :=
  decide (line.length ≠ 0 ∧ line.front ≠ 'c' ∧ line.front ≠ 'p')

/-- A line the parser skips (empty or comment). -/
def isSkipLine (line : String) : Bool :=
  decide (line.length = 0 ∨ line.front = 'c')

/-- The number of clause lines of a stream. -/
def clauseCount (lines : List String) : Nat := (lines.filter isClauseLine).length

theorem parseLines_skip (m : stringIdMap) (pm : ProductMap) (line : String)
    (rest : List String) (st : PState) (h : isSkipLine line = true) :
    parseLines m pm (line :: rest) st = parseLines m pm rest st := by
  have h2 := of_decide_eq_true h
  rw [parseLines.eq_def]
  dsimp only
  rcases h2 with h2 | h2
  · rw [if_pos h2]
  · by_cases h1 : line.length = 0
    · rw [if_pos h1]
    · rw [if_neg h1, if_pos h2]

theorem parseLines_preamble (m : stringIdMap) (pm : ProductMap) (line : String)
    (rest : List String) (st : PState) (size : Int)
    (h1 : line.length ≠ 0) (h2 : line.front = 'p')
    (h3 : parseIntGo ((goFields line).getLastD "") = some size) (h4 : 0 ≤ size) :
    parseLines m pm (line :: rest) st
      = parseLines m pm rest ⟨List.replicate size.toNat none, st.clause⟩ := by
  rw [parseLines.eq_def]
  dsimp only
  rw [if_neg h1, if_neg (by rw [h2]; decide), if_pos h2, h3]
  dsimp only
  rw [if_neg (by omega)]

theorem clauseCount_cons (line : String) (rest : List String) :
    clauseCount (line :: rest)
      = (if isClauseLine line then 1 else 0) + clauseCount rest := by
  unfold clauseCount
  rw [List.filter_cons]
  by_cases h : isClauseLine line
  · rw [if_pos h, if_pos h]
    simp [Nat.add_comm]
  · rw [if_neg h, if_neg h]
    simp

theorem parseLines_no_relsPanic (m : stringIdMap) (pm : ProductMap) :
    ∀ (post : List String) (st : PState),
      (∀ l2 ∈ post, l2.front ≠ 'p') →
      st.clause + clauseCount post ≤ st.rels.length →
      parseLines m pm post st ≠ .panicRels := by
  intro post
  induction post with
  | nil =>
    intro st _ _
    simp [parseLines]
  | cons line rest ih =>
    intro st hp hcc
    have hptail : ∀ l2 ∈ rest, l2.front ≠ 'p' := fun l2 hl2 => hp l2 (List.mem_cons_of_mem _ hl2)
    by_cases h1 : line.length = 0
    · rw [parseLines_skip m pm line rest st (by unfold isSkipLine; exact decide_eq_true (Or.inl h1))]
      apply ih st hptail
      rw [clauseCount_cons] at hcc
      have : isClauseLine line = false := by
        unfold isClauseLine
        apply decide_eq_false
        push_neg
        intro hc
        exact absurd h1 hc
      rw [this] at hcc
      simpa using hcc
    · by_cases h2 : line.front = 'c'
      · rw [parseLines_skip m pm line rest st (by unfold isSkipLine; exact decide_eq_true (Or.inr h2))]
        apply ih st hptail
        rw [clauseCount_cons] at hcc
        have : isClauseLine line = false := by
          unfold isClauseLine
          apply decide_eq_false
          push_neg
          intro _ hc
          exact absurd h2 hc
        rw [this] at hcc
        simpa using hcc
      · have h3 : line.front ≠ 'p' := hp line (List.mem_cons_self line rest)
        have hcl : isClauseLine line = true := by
          unfold isClauseLine
          exact decide_eq_true ⟨h1, h2, h3⟩
        rw [clauseCount_cons, hcl] at hcc
        simp only [if_pos] at hcc
        rw [parseLines.eq_def]
        dsimp only
        rw [if_neg h1, if_neg h2, if_neg h3]
        by_cases hfs : (goFields line).length = 0
        · rw [if_pos hfs]
          intro hx
          exact ParseOut.noConfusion hx
        · rw [if_neg hfs]
          cases hLL : litsLoop (goFields line) 0
              (List.replicate ((goFields line).length - 1) 0) 0 with
          | err e =>
            dsimp only
            exact fun hx => ParseOut.noConfusion hx
          | panic =>
            dsimp only
            exact fun hx => ParseOut.noConfusion hx
          | ok lits negs =>
            dsimp only
            cases hLP : litsToPaks m pm (sortInts lits) with
            | error e =>
              dsimp only
              exact fun hx => ParseOut.noConfusion hx
            | ok paks =>
              dsimp only
              cases hCG : classifyGo (sortInts lits) negs with
              | error e =>
                dsimp only
                exact fun hx => ParseOut.noConfusion hx
              | ok rel =>
                dsimp only
                have hlt : st.clause < st.rels.length := by omega
                rw [if_pos hlt]
                apply ih ⟨st.rels.set st.clause (some ⟨paks, rel⟩), st.clause + 1⟩ hptail
                simp only [List.length_set]
                omega

theorem parseLines_store_panics (m : stringIdMap) (pm : ProductMap) (line : String)
    (rest : List String) (st : PState) (lits : List Int) (negs : Nat)
    (paks : List Package) (rel : Relation)
    (h1 : line.length ≠ 0) (h2 : line.front ≠ 'c') (h3 : line.front ≠ 'p')
    (hfs : (goFields line).length ≠ 0)
    (hLL : litsLoop (goFields line) 0 (List.replicate ((goFields line).length - 1) 0) 0
        = .ok lits negs)
    (hLP : litsToPaks m pm (sortInts lits) = .ok paks)
    (hCG : classifyGo (sortInts lits) negs = .ok rel)
    (hov : st.rels.length ≤ st.clause) :
    parseLines m pm (line :: rest) st = .panicRels := by
  rw [parseLines.eq_def]
  dsimp only
  rw [if_neg h1, if_neg h2, if_neg h3, if_neg hfs, hLL]
  dsimp only
  rw [hLP]
  dsimp only
  rw [hCG]
  dsimp only
  rw [if_neg (by omega)]

/-- C10 amended: when a single p preamble precedes all clause lines and
declares a count at least the number of clause lines, every store
rels[clause] is in bounds (the parser never reaches the out-of-range
rels store).  When the precondition is violated — a clause line before
any preamble, so the rels slice is still nil, or more clause lines than
the declared count — the parser panics with the out-of-range store
PROVIDED the offending line reaches the store: its literals parse, map
to known packages and classify; a line failing any of those checks
returns an error before the store instead of panicking. -/
theorem C10_rels_store_bounds :
    (∀ (m : stringIdMap) (pm : ProductMap) (pre : List String) (pline : String)
        (post : List String) (size : Int),
      (∀ l2 ∈ pre, isSkipLine l2 = true) →
      pline.length ≠ 0 → pline.front = 'p' →
      parseIntGo ((goFields pline).getLastD "") = some size → 0 ≤ size →
      (∀ l2 ∈ post, l2.front ≠ 'p') →
      clauseCount post ≤ size.toNat →
      parseLines m pm (pre ++ pline :: post) initialPState ≠ .panicRels)
    ∧ (∀ (m : stringIdMap) (pm : ProductMap) (line : String) (rest : List String)
        (st : PState) (lits : List Int) (negs : Nat) (paks : List Package) (rel : Relation),
      line.length ≠ 0 → line.front ≠ 'c' → line.front ≠ 'p' →
      (goFields line).length ≠ 0 →
      litsLoop (goFields line) 0 (List.replicate ((goFields line).length - 1) 0) 0
          = .ok lits negs →
      litsToPaks m pm (sortInts lits) = .ok paks →
      classifyGo (sortInts lits) negs = .ok rel →
      st.rels.length ≤ st.clause →
      parseLines m pm (line :: rest) st = .panicRels) := by
  constructor
  · intro m pm pre pline post size hpre hp1 hp2 hp3 hp4 hpost hcc
    have hskip : ∀ (pre2 : List String), (∀ l2 ∈ pre2, isSkipLine l2 = true) →
        ∀ st, parseLines m pm (pre2 ++ pline :: post) st
          = parseLines m pm (pline :: post) st := by
      intro pre2
      induction pre2 with
      | nil => intro _ st; rfl
      | cons l ls ih =>
        intro hpre2 st
        rw [List.cons_append, parseLines_skip m pm l _ st (hpre2 l (List.mem_cons_self l ls))]
        exact ih (fun q hq => hpre2 q (List.mem_cons_of_mem _ hq)) st
    rw [hskip pre hpre initialPState,
      parseLines_preamble m pm pline post initialPState size hp1 hp2 hp3 hp4]
    apply parseLines_no_relsPanic m pm post _ hpost
    simp only [List.length_replicate]
    simpa [initialPState] using hcc
  · intro m pm line rest st lits negs paks rel h1 h2 h3 hfs hLL hLP hCG hov
    exact parseLines_store_panics m pm line rest st lits negs paks rel
      h1 h2 h3 hfs hLL hLP hCG hov

/-- The resolver of the C10 witness, knowing the single package A-1 with
id 1. -/
def C10resolver : Resolver := (Initialize [] [⟨⟨"A", "1"⟩, []⟩] .ResolveSortNone).1

/-- Witness for C10: a well-formed stream parses without the rels panic,
and the same clause line fed to a parser state whose rels slice is full
(here the initial nil slice) panics at the store. -/
theorem C10_rels_store_bounds_witness :
    parseLines C10resolver.idMap C10resolver.prodMap ["c x", "p cnf 1 1", "1 0"]
        initialPState ≠ .panicRels
    ∧ parseLines C10resolver.idMap C10resolver.prodMap ["1 0"] initialPState = .panicRels :=
  ⟨C10_rels_store_bounds.1 C10resolver.idMap C10resolver.prodMap ["c x"] "p cnf 1 1"
      ["1 0"] 1 (by decide) (by decide) (by decide) (by decide) (by decide)
      (by decide) (by decide),
   C10_rels_store_bounds.2 C10resolver.idMap C10resolver.prodMap "1 0" [] initialPState
      [1] 0 [⟨"A", "1"⟩] .Required (by decide) (by decide) (by decide) (by decide)
      (by decide) (by decide) (by decide) (by decide)⟩

/-- Counterexample to C10 as stated: the stream ["foo 0"] has a clause
line before any preamble, so by the claim the parser should panic with
an out-of-range store; instead the unparsable literal makes it return an
error before the store is reached. -/
theorem C10_counterexample :
    parseLines newStringIdMap NewProductMap ["foo 0"] initialPState
      = .err "Error parsing int foo from line"
    ∧ parseLines newStringIdMap NewProductMap ["foo 0"] initialPState ≠ .panicRels
    ∧ parseLines newStringIdMap NewProductMap ["foo 0"] initialPState ≠ .panicLits := by
  decide

end Pakr
